import Mathlib

/-!
Kiten kanji / word pages: lookup aggregation.

A shallow embedding of the decision logic of `KanjiPage::setKanji`,
`KanjiPage::handleLinkClicked`, `WordPage::setWord` and the three
`isCJKCharacter` helpers (`src/app/kanjipage.cpp`, `src/app/wordpage.cpp`,
`src/app/searchresultspage.cpp`) and of the page history declared in
`src/app/kiten.h`, followed by the properties proved about it.

Only the parts of the functions that decide *which* entries are shown, and in
which order, are embedded; the HTML text that is assembled around them is not.
-/

namespace Kiten

/-! ## Qt value types -/

/-- A `QChar`: one UTF-16 code unit.  Well-formed values are below `2 ^ 16`. -/
abbrev QChar := Nat

/-- A `QString`: a sequence of UTF-16 code units. -/
abbrev QString := List QChar

/-- The value of `QChar::unicode()` stored in a `ushort`: 16 bits. -/
def QChar.unicode (ch : QChar) : Nat := ch % 65536

/-! ## `isCJKCharacter` (three textually separate copies) -/

/-- The function `KanjiPage::isCJKCharacter`, kanjipage.cpp 271-281. -/
def KanjiPage.isCJKCharacter (ch : QChar) : Bool :=
  let value := QChar.unicode ch
  if value < 255 then
    false
  else if 0x3040 ≤ value ∧ value ≤ 0x30FF then
    false
  else
    true

/-- The function `WordPage::isCJKCharacter`, wordpage.cpp 231-241. -/
def WordPage.isCJKCharacter (ch : QChar) : Bool :=
  let value := QChar.unicode ch
  if value < 255 then
    false
  else if 0x3040 ≤ value ∧ value ≤ 0x30FF then
    false
  else
    true

/-- The function `SearchResultsPage::isCJKCharacter`,
searchresultspage.cpp 40-51. -/
def SearchResultsPage.isCJKCharacter (ch : QChar) : Bool :=
  let value := QChar.unicode ch
  if value < 255 then
    false
  else if 0x3040 ≤ value ∧ value ≤ 0x30FF then
    false
  else
    true

/-! ## `QString` operations used by the pages

These are Qt library functions; they are written out from the behaviour Qt
documents (comparison by the numeric value of the code units, case-sensitive
sub-string search). -/

/-- The function `QString::isEmpty`. -/
def QString.isEmpty (s : QString) : Bool :=
  match s with
  | [] => true
  | _ :: _ => false

/-- The operator `operator<(const QString &, const QString &)`: lexicographic comparison of
the code units; a proper initial segment is smaller. -/
def QString.lt : QString → QString → Bool
  | [], [] => false
  | [], _ :: _ => true
  | _ :: _, [] => false
  | a :: s, b :: t =>
    if a < b then true
    else if b < a then false
    else QString.lt s t

/-- The function `QString::startsWith(const QString &)`. -/
def QString.startsWith : QString → QString → Bool
  | _, [] => true
  | [], _ :: _ => false
  | a :: s, b :: t => if a = b then QString.startsWith s t else false

/-- The function `QString::contains(const QString &)`: `sub` occurs in `s` at some offset. -/
def QString.contains : QString → QString → Bool
  | [], sub => QString.isEmpty sub
  | a :: s, sub => QString.startsWith (a :: s) sub || QString.contains s sub

/-! ## Dictionary entries

`Entry` and `EntryKanjidic` are library classes.  An entry of a result list is
represented by what the two pages observe of it. -/

/-- One element of an `EntryList`, as observed by the pages. -/
structure Entry where
  /-- Whether `dynamic_cast<EntryKanjidic *>(entry)` is non-null. -/
  isKanjidic : Bool
  /-- The result of `getWord()`. -/
  word : QString
  /-- The result of `getReadings()`, one text. -/
  readings : QString
  /-- The result of `getMeanings()`, one text. -/
  meanings : QString
  /-- The result of `extendedItemCheck("common", "1")`. -/
  common : Bool
  deriving DecidableEq

/-- The index `i` is the position of the first element of `l` that satisfies `p`. -/
def IsFirstIndex (p : Entry → Prop) (l : List Entry) (i : Nat) : Prop :=
  (∃ e, l[i]? = some e ∧ p e) ∧ ∀ j, j < i → ∀ e, l[j]? = some e → ¬ p e

/-! ## `KanjiPage::setKanji` -/

/-- The search for the `EntryKanjidic` entry, kanjipage.cpp 51-59: the loop
over `kanjiResults` from index `i` on, returning the index it stops at. -/
def KanjiPage.findKanjiEntry : List Entry → Nat → Option Nat
  | [], _ => none
  | entry :: rest, i =>
    if entry.isKanjidic then some i
    else KanjiPage.findKanjiEntry rest (i + 1)

/-- The local `struct CompoundInfo` of `setKanji`, kanjipage.cpp 139-144. -/
structure CompoundInfo where
  word : QString
  reading : QString
  meaning : QString
  isCommon : Bool
  deriving DecidableEq

/-- The `CompoundInfo` filled in from one entry, kanjipage.cpp 153-157. -/
def KanjiPage.compoundInfo (entry : Entry) : CompoundInfo :=
  { word := entry.word
    reading := entry.readings
    meaning := entry.meanings
    isCommon := entry.common }

/-- The collecting loop, kanjipage.cpp 147-159: `compounds` is the list built
so far, the first argument the entries still to visit. -/
def KanjiPage.collectCompounds : List Entry → List CompoundInfo → List CompoundInfo
  | [], compounds => compounds
  | entry :: rest, compounds =>
    if entry.isKanjidic then
      KanjiPage.collectCompounds rest compounds
    else
      KanjiPage.collectCompounds rest (compounds ++ [KanjiPage.compoundInfo entry])

/-- The comparator lambda handed to `std::sort`, kanjipage.cpp 162-167. -/
def KanjiPage.compoundLess (a b : CompoundInfo) : Bool :=
  if a.isCommon != b.isCommon then
    a.isCommon
  else
    QString.lt a.word b.word

/-- The C++ requirement *Compare* on a comparator: a strict weak ordering. -/
def StrictWeakOrder (comp : CompoundInfo → CompoundInfo → Bool) : Prop :=
  (∀ a, comp a a = false) ∧
  (∀ a b c, comp a b = true → comp b c = true → comp a c = true) ∧
  (∀ a b c, comp a b = false → comp b a = false → comp b c = false → comp c b = false →
    comp a c = false ∧ comp c a = false)

/-- What the C++ standard guarantees of `std::sort(first, last, comp)`: for a
comparator that is a strict weak ordering the range afterwards holds the same
elements, and no element is smaller (by `comp`) than one before it.  Nothing
is promised about the order of equivalent elements. -/
def StdSortContract
    (sort : (CompoundInfo → CompoundInfo → Bool) → List CompoundInfo → List CompoundInfo) :
    Prop :=
  ∀ comp xs, StrictWeakOrder comp →
    List.Perm (sort comp xs) xs ∧ List.Pairwise (fun a b => comp b a = false) (sort comp xs)

/-- One conforming `std::sort`: insertion sort. -/
def insertionStdSort (comp : CompoundInfo → CompoundInfo → Bool)
    (xs : List CompoundInfo) : List CompoundInfo :=
  List.insertionSort (fun a b => comp b a = false) xs

/-! ## The `std::sort` of GNU libstdc++

The functions of `bits/stl_algo.h` and `bits/stl_heap.h` (GCC 12) that make up
`std::sort`, the one a build of the program with GCC runs, over the range as a
list; an iterator is its distance from `begin()`.  The loops that count upwards
carry a bound on their number of steps as first argument, which the size of the
range always meets. -/

/-- The element `*(begin + i)`; every index read by the sort is inside the
range. -/
def Stl.elemAt (xs : List CompoundInfo) (i : Nat) : CompoundInfo :=
  xs.getD i { word := [], reading := [], meaning := [], isCommon := false }

/-- The function `std::iter_swap(a, b)`. -/
def Stl.iterSwap (xs : List CompoundInfo) (a b : Nat) : List CompoundInfo :=
  (xs.set a (Stl.elemAt xs b)).set b (Stl.elemAt xs a)

/-- The function `std::__lg(n)`, the position of the highest set bit of `n`;
the first argument bounds the number of halvings. -/
def Stl.lgLoop : Nat → Nat → Nat
  | 0, _ => 0
  | fuel + 1, n => if n ≤ 1 then 0 else Stl.lgLoop fuel (n / 2) + 1

/-- The function `std::__lg(n)`. -/
def Stl.lg (n : Nat) : Nat := Stl.lgLoop n n

/-- The function `std::__move_median_to_first(result, a, b, c, comp)`. -/
def Stl.moveMedianToFirst (comp : CompoundInfo → CompoundInfo → Bool) (xs : List CompoundInfo)
    (result a b c : Nat) : List CompoundInfo :=
  if comp (Stl.elemAt xs a) (Stl.elemAt xs b) then
    if comp (Stl.elemAt xs b) (Stl.elemAt xs c) then
      Stl.iterSwap xs result b
    else if comp (Stl.elemAt xs a) (Stl.elemAt xs c) then
      Stl.iterSwap xs result c
    else
      Stl.iterSwap xs result a
  else if comp (Stl.elemAt xs a) (Stl.elemAt xs c) then
    Stl.iterSwap xs result a
  else if comp (Stl.elemAt xs b) (Stl.elemAt xs c) then
    Stl.iterSwap xs result c
  else
    Stl.iterSwap xs result b

/-- The loop `while (comp(first, pivot)) ++first;` of `__unguarded_partition`;
the first argument bounds the number of steps by the size of the range. -/
def Stl.partitionUp (comp : CompoundInfo → CompoundInfo → Bool) (xs : List CompoundInfo)
    (pivot : Nat) : Nat → Nat → Nat
  | 0, first => first
  | fuel + 1, first =>
    if comp (Stl.elemAt xs first) (Stl.elemAt xs pivot) then
      Stl.partitionUp comp xs pivot fuel (first + 1)
    else
      first

/-- The loop `while (comp(pivot, last)) --last;` of `__unguarded_partition`. -/
def Stl.partitionDown (comp : CompoundInfo → CompoundInfo → Bool) (xs : List CompoundInfo)
    (pivot : Nat) : Nat → Nat
  | 0 => 0
  | last + 1 =>
    if comp (Stl.elemAt xs pivot) (Stl.elemAt xs (last + 1)) then
      Stl.partitionDown comp xs pivot last
    else
      last + 1

/-- The function `std::__unguarded_partition(first, last, pivot, comp)`: the
range afterwards and the iterator returned.  The first argument bounds the
number of rounds of `while (true)` by the size of the range. -/
def Stl.unguardedPartition (comp : CompoundInfo → CompoundInfo → Bool) (pivot : Nat) :
    Nat → List CompoundInfo → Nat → Nat → List CompoundInfo × Nat
  | 0, xs, first, _ => (xs, first)
  | fuel + 1, xs, first, last =>
    let first := Stl.partitionUp comp xs pivot xs.length first
    let last := last - 1
    let last := Stl.partitionDown comp xs pivot last
    if !(first < last) then
      (xs, first)
    else
      Stl.unguardedPartition comp pivot fuel (Stl.iterSwap xs first last) (first + 1) last

/-- The function `std::__unguarded_partition_pivot(first, last, comp)`. -/
def Stl.unguardedPartitionPivot (comp : CompoundInfo → CompoundInfo → Bool)
    (xs : List CompoundInfo) (first last : Nat) : List CompoundInfo × Nat :=
  let mid := first + (last - first) / 2
  let xs := Stl.moveMedianToFirst comp xs first (first + 1) mid (last - 1)
  Stl.unguardedPartition comp first xs.length xs (first + 1) last

/-- The function `std::__push_heap(first, holeIndex, topIndex, value, comp)`;
the first argument bounds the number of steps by the hole index. -/
def Stl.pushHeap (comp : CompoundInfo → CompoundInfo → Bool) (first topIndex : Nat)
    (value : CompoundInfo) : Nat → List CompoundInfo → Nat → List CompoundInfo
  | 0, xs, holeIndex => xs.set (first + holeIndex) value
  | fuel + 1, xs, holeIndex =>
    let parent := (holeIndex - 1) / 2
    if holeIndex > topIndex ∧ comp (Stl.elemAt xs (first + parent)) value = true then
      Stl.pushHeap comp first topIndex value fuel
        (xs.set (first + holeIndex) (Stl.elemAt xs (first + parent))) parent
    else
      xs.set (first + holeIndex) value

/-- The first loop of `std::__adjust_heap`: the range, `holeIndex` and
`secondChild` afterwards; the first argument bounds the number of steps by
`len`. -/
def Stl.adjustHeapLoop (comp : CompoundInfo → CompoundInfo → Bool) (first len : Nat) :
    Nat → List CompoundInfo → Nat → Nat → List CompoundInfo × Nat × Nat
  | 0, xs, holeIndex, secondChild => (xs, holeIndex, secondChild)
  | fuel + 1, xs, holeIndex, secondChild =>
    if secondChild < (len - 1) / 2 then
      let secondChild := 2 * (secondChild + 1)
      let secondChild :=
        if comp (Stl.elemAt xs (first + secondChild)) (Stl.elemAt xs (first + (secondChild - 1))) then
          secondChild - 1
        else
          secondChild
      Stl.adjustHeapLoop comp first len fuel
        (xs.set (first + holeIndex) (Stl.elemAt xs (first + secondChild))) secondChild secondChild
    else
      (xs, holeIndex, secondChild)

/-- The function `std::__adjust_heap(first, holeIndex, len, value, comp)`. -/
def Stl.adjustHeap (comp : CompoundInfo → CompoundInfo → Bool) (xs : List CompoundInfo)
    (first holeIndex len : Nat) (value : CompoundInfo) : List CompoundInfo :=
  let topIndex := holeIndex
  match Stl.adjustHeapLoop comp first len len xs holeIndex holeIndex with
  | (xs, holeIndex, secondChild) =>
    if len % 2 = 0 ∧ secondChild = (len - 2) / 2 then
      let secondChild := 2 * (secondChild + 1)
      let xs := xs.set (first + holeIndex) (Stl.elemAt xs (first + (secondChild - 1)))
      let holeIndex := secondChild - 1
      Stl.pushHeap comp first topIndex value (holeIndex + 1) xs holeIndex
    else
      Stl.pushHeap comp first topIndex value (holeIndex + 1) xs holeIndex

/-- The function `std::__pop_heap(first, last, result, comp)`. -/
def Stl.popHeap (comp : CompoundInfo → CompoundInfo → Bool) (xs : List CompoundInfo)
    (first last result : Nat) : List CompoundInfo :=
  let value := Stl.elemAt xs result
  let xs := xs.set result (Stl.elemAt xs first)
  Stl.adjustHeap comp xs first 0 (last - first) value

/-- The loop of `std::__make_heap` from `parent` down to `0`. -/
def Stl.makeHeapLoop (comp : CompoundInfo → CompoundInfo → Bool) (first len : Nat) :
    Nat → List CompoundInfo → List CompoundInfo
  | 0, xs => Stl.adjustHeap comp xs first 0 len (Stl.elemAt xs first)
  | parent + 1, xs =>
    Stl.makeHeapLoop comp first len parent
      (Stl.adjustHeap comp xs first (parent + 1) len (Stl.elemAt xs (first + (parent + 1))))

/-- The function `std::__make_heap(first, last, comp)`. -/
def Stl.makeHeap (comp : CompoundInfo → CompoundInfo → Bool) (xs : List CompoundInfo)
    (first last : Nat) : List CompoundInfo :=
  if last - first < 2 then
    xs
  else
    let len := last - first
    Stl.makeHeapLoop comp first len ((len - 2) / 2) xs

/-- The function `std::__sort_heap(first, last, comp)`, by the length
`last - first` of the range. -/
def Stl.sortHeap (comp : CompoundInfo → CompoundInfo → Bool) (first : Nat) :
    Nat → List CompoundInfo → List CompoundInfo
  | 0, xs => xs
  | n + 1, xs =>
    if n + 1 > 1 then
      let last := first + n
      Stl.sortHeap comp first n (Stl.popHeap comp xs first last last)
    else
      xs

/-- The function `std::__heap_select(first, middle, last, comp)`. -/
def Stl.heapSelect (comp : CompoundInfo → CompoundInfo → Bool) (xs : List CompoundInfo)
    (first middle last : Nat) : List CompoundInfo :=
  (List.range (last - middle)).foldl
    (fun xs k =>
      let i := middle + k
      if comp (Stl.elemAt xs i) (Stl.elemAt xs first) then Stl.popHeap comp xs first middle i else xs)
    (Stl.makeHeap comp xs first middle)

/-- The function `std::__partial_sort(first, middle, last, comp)`. -/
def Stl.partialSort (comp : CompoundInfo → CompoundInfo → Bool) (xs : List CompoundInfo)
    (first middle last : Nat) : List CompoundInfo :=
  Stl.sortHeap comp first (middle - first) (Stl.heapSelect comp xs first middle last)

/-- The function `std::__introsort_loop(first, last, depth_limit, comp)`, by
`depth_limit`, which every round of its loop decrements. -/
def Stl.introsortLoop (comp : CompoundInfo → CompoundInfo → Bool) :
    Nat → List CompoundInfo → Nat → Nat → List CompoundInfo
  | 0, xs, first, last =>
    if last - first > 16 then Stl.partialSort comp xs first last last else xs
  | depthLimit + 1, xs, first, last =>
    if last - first > 16 then
      match Stl.unguardedPartitionPivot comp xs first last with
      | (xs, cut) =>
        let xs := Stl.introsortLoop comp depthLimit xs cut last
        Stl.introsortLoop comp depthLimit xs first cut
    else
      xs

/-- The function `std::__unguarded_linear_insert(last, comp)` for the value
`val` taken from `*last`, by the position `last`. -/
def Stl.unguardedLinearInsertLoop (comp : CompoundInfo → CompoundInfo → Bool)
    (val : CompoundInfo) : Nat → List CompoundInfo → List CompoundInfo
  | 0, xs => xs.set 0 val
  | next + 1, xs =>
    if comp val (Stl.elemAt xs next) then
      Stl.unguardedLinearInsertLoop comp val next (xs.set (next + 1) (Stl.elemAt xs next))
    else
      xs.set (next + 1) val

/-- The function `std::__unguarded_linear_insert(last, comp)`. -/
def Stl.unguardedLinearInsert (comp : CompoundInfo → CompoundInfo → Bool)
    (xs : List CompoundInfo) (last : Nat) : List CompoundInfo :=
  Stl.unguardedLinearInsertLoop comp (Stl.elemAt xs last) last xs

/-- The function `std::__insertion_sort(first, last, comp)`. -/
def Stl.insertionSort (comp : CompoundInfo → CompoundInfo → Bool) (xs : List CompoundInfo)
    (first last : Nat) : List CompoundInfo :=
  if first = last then
    xs
  else
    (List.range (last - (first + 1))).foldl
      (fun xs k =>
        let i := first + 1 + k
        if comp (Stl.elemAt xs i) (Stl.elemAt xs first) then
          let val := Stl.elemAt xs i
          xs.take first ++ [val] ++ (xs.drop first).take (i - first) ++ xs.drop (i + 1)
        else
          Stl.unguardedLinearInsert comp xs i)
      xs

/-- The function `std::__unguarded_insertion_sort(first, last, comp)`. -/
def Stl.unguardedInsertionSort (comp : CompoundInfo → CompoundInfo → Bool)
    (xs : List CompoundInfo) (first last : Nat) : List CompoundInfo :=
  (List.range (last - first)).foldl (fun xs k => Stl.unguardedLinearInsert comp xs (first + k)) xs

/-- The function `std::__final_insertion_sort(first, last, comp)`. -/
def Stl.finalInsertionSort (comp : CompoundInfo → CompoundInfo → Bool) (xs : List CompoundInfo)
    (first last : Nat) : List CompoundInfo :=
  if last - first > 16 then
    Stl.unguardedInsertionSort comp (Stl.insertionSort comp xs first (first + 16)) (first + 16) last
  else
    Stl.insertionSort comp xs first last

/-- The function `std::sort(first, last, comp)` of libstdc++ over a whole
container, `std::__sort`. -/
def Stl.gnuStdSort (comp : CompoundInfo → CompoundInfo → Bool) (xs : List CompoundInfo) :
    List CompoundInfo :=
  if xs.length = 0 then
    xs
  else
    Stl.finalInsertionSort comp (Stl.introsortLoop comp (Stl.lg xs.length * 2) xs 0 xs.length) 0 xs.length

/-- What `setKanji` decides about the page it renders. -/
structure KanjiView where
  /-- The index in `kanjiResults` of `kanjiEntry`, `none` for `nullptr`. -/
  kanjiEntry : Option Nat
  /-- The list `compounds` after `std::sort`. -/
  compounds : List CompoundInfo
  /-- The candidates rendered, in order: `comp` of each round of the loop at
  kanjipage.cpp 171-192. -/
  shown : List CompoundInfo
  /-- The number in the line "...and %1 more", `none` when it is not written. -/
  more : Option Nat

/-- The function `KanjiPage::setKanji`, kanjipage.cpp 43-210, over the two
result lists that `dictManager->doSearch` returned and the `std::sort` in use. -/
def KanjiPage.setKanji
    (sort : (CompoundInfo → CompoundInfo → Bool) → List CompoundInfo → List CompoundInfo)
    (kanjiResults compoundResults : List Entry) : KanjiView :=
  let kanjiEntry := KanjiPage.findKanjiEntry kanjiResults 0
  if compoundResults.length > 0 then
    let compounds := sort KanjiPage.compoundLess (KanjiPage.collectCompounds compoundResults [])
    let limit := min compounds.length 50
    let shown := (List.range limit).filterMap fun i => compounds[i]?
    let more := if compounds.length > limit then some (compounds.length - limit) else none
    { kanjiEntry := kanjiEntry, compounds := compounds, shown := shown, more := more }
  else
    { kanjiEntry := kanjiEntry, compounds := [], shown := [], more := none }

/-! ## Meaning summary and word links of `KanjiPage` -/

/-- The function `QString::left(n)`: the `n` leftmost code units; the whole
string when `n` is negative or not below the size. -/
def QString.left (s : QString) (n : Int) : QString :=
  if n < 0 ∨ (s.length : Int) ≤ n then s else s.take n.toNat

/-- The function `QString::mid(position)`: the code units from `position` to the
end; empty when `position` is beyond the size. -/
def QString.mid (s : QString) (position : Int) : QString :=
  if (s.length : Int) < position then [] else s.drop position.toNat

/-- The function `QString::indexOf(ch)`: the index of the first occurrence of
`ch`, or `-1` when there is none. -/
def QString.indexOf : QString → QChar → Int
  | [], _ => -1
  | a :: s, ch =>
    if a = ch then 0
    else if QString.indexOf s ch < 0 then -1
    else QString.indexOf s ch + 1

/-- The text `"..."`. -/
def ellipsis : QString := [0x2E, 0x2E, 0x2E]

/-- The text `"kanji:"`. -/
def kanjiScheme : QString := [0x6B, 0x61, 0x6E, 0x6A, 0x69, 0x3A]

/-- The text `"word:"`. -/
def wordScheme : QString := [0x77, 0x6F, 0x72, 0x64, 0x3A]

/-- The character `':'`. -/
def colon : QChar := 0x3A

/-- The text `meaningShort` rendered for a candidate whose `meaning` is given,
kanjipage.cpp 180-184. -/
def KanjiPage.meaningShort (meaning : QString) : QString :=
  let meaningShort := meaning
  if meaningShort.length > 80 then
    QString.left meaningShort 77 ++ ellipsis
  else
    meaningShort

/-- The target `word:%1:%2` inside the `href` of `wordLink`, kanjipage.cpp
175-176, with `%1` the word and `%2` the reading. -/
def KanjiPage.wordLinkTarget (word reading : QString) : QString :=
  wordScheme ++ word ++ [colon] ++ reading

/-- The text `wordLink` of a candidate, kanjipage.cpp 175-176: the pattern
`<a href="word:%1:%2">%1</a>` with `%1` the word and `%2` the reading. -/
def KanjiPage.wordLink (comp : CompoundInfo) : QString :=
  [0x3C, 0x61, 0x20, 0x68, 0x72, 0x65, 0x66, 0x3D, 0x22] ++
    KanjiPage.wordLinkTarget comp.word comp.reading ++ [0x22, 0x3E] ++
    comp.word ++ [0x3C, 0x2F, 0x61, 0x3E]

/-- The signals of `KanjiPage`, kanjipage.h 27-28. -/
inductive KanjiPage.Signal where
  | kanjiClicked (kanji : QChar)
  | wordClicked (word reading : QString)
  deriving DecidableEq

/-- The function `KanjiPage::handleLinkClicked`, kanjipage.cpp 212-233, over
the text `urlStr` of the clicked link; the result is the signal emitted, if
any. -/
def KanjiPage.handleLinkClicked (urlStr : QString) : Option KanjiPage.Signal :=
  if QString.startsWith urlStr kanjiScheme then
    let kanjiStr := QString.mid urlStr 6
    match kanjiStr with
    | [] => none
    | ch :: _ => some (KanjiPage.Signal.kanjiClicked ch)
  else if QString.startsWith urlStr wordScheme then
    let rest := QString.mid urlStr 5
    let sep := QString.indexOf rest colon
    if sep > 0 then
      let word := QString.left rest sep
      let reading := QString.mid rest (sep + 1)
      some (KanjiPage.Signal.wordClicked word reading)
    else
      none
  else
    match urlStr with
    | [ch] =>
      if KanjiPage.isCJKCharacter ch then some (KanjiPage.Signal.kanjiClicked ch) else none
    | _ => none

/-! ## `WordPage::setWord` -/

/-- The first loop of `setWord`, wordpage.cpp 44-61, from index `i` on with
`bestEntry` as it stands; the result is `bestEntry` after the loop. -/
def WordPage.scanBestEntry (word reading : QString) :
    List Entry → Nat → Option Nat → Option Nat
  | [], _, bestEntry => bestEntry
  | entry :: rest, i, bestEntry =>
    if entry.isKanjidic then
      WordPage.scanBestEntry word reading rest (i + 1) bestEntry
    else if entry.word = word then
      if !QString.isEmpty reading && QString.contains entry.readings reading then
        some i
      else if bestEntry.isNone then
        WordPage.scanBestEntry word reading rest (i + 1) (some i)
      else
        WordPage.scanBestEntry word reading rest (i + 1) bestEntry
    else
      WordPage.scanBestEntry word reading rest (i + 1) bestEntry

/-- The second loop of `setWord`, wordpage.cpp 65-71, from index `i` on. -/
def WordPage.firstNonKanjidic : List Entry → Nat → Option Nat
  | [], _ => none
  | entry :: rest, i =>
    if !entry.isKanjidic then some i
    else WordPage.firstNonKanjidic rest (i + 1)

/-- The pointer `bestEntry` of `setWord` after wordpage.cpp 44-72, as an index
in `results`. -/
def WordPage.bestEntry (word reading : QString) (results : List Entry) : Option Nat :=
  let bestEntry := WordPage.scanBestEntry word reading results 0 none
  if bestEntry.isNone then WordPage.firstNonKanjidic results 0 else bestEntry

/-- The loop that fills `kanjiChars`, wordpage.cpp 112-118, over the characters
still to visit. -/
def WordPage.collectKanjiChars : QString → List QChar → List QChar
  | [], kanjiChars => kanjiChars
  | ch :: rest, kanjiChars =>
    if WordPage.isCJKCharacter ch then
      WordPage.collectKanjiChars rest (kanjiChars ++ [ch])
    else
      WordPage.collectKanjiChars rest kanjiChars

/-- The list `kanjiChars` computed for a word, wordpage.cpp 112-118. -/
def WordPage.kanjiChars (word : QString) : List QChar :=
  WordPage.collectKanjiChars word []

/-- What `setWord` decides about the page it renders. -/
structure WordView where
  /-- The index in `results` of `bestEntry`, `none` for `nullptr`. -/
  bestEntry : Option Nat
  /-- The characters of the "Kanji in this word" section. -/
  kanjiChars : List QChar

/-- The function `WordPage::setWord`, wordpage.cpp 38-182, over the result list
that `dictManager->doSearch` returned. -/
def WordPage.setWord (word reading : QString) (results : List Entry) : WordView :=
  let bestEntry := WordPage.bestEntry word reading results
  match bestEntry.bind fun i => results[i]? with
  | some entry => { bestEntry := bestEntry, kanjiChars := WordPage.kanjiChars entry.word }
  | none => { bestEntry := bestEntry, kanjiChars := [] }

/-! ## Readings of an entry as a sequence -/

/-- The function `QStringList::join(separator)`. -/
def QStringList.join : List QString → QString → QString
  | [], _ => []
  | [s], _ => s
  | s :: t :: rest, separator => s ++ separator ++ QStringList.join (t :: rest) separator

/-- Modelled from the spec: the `readings` of a `DictionaryEntry` are an ordered
sequence of pronunciation strings.  The class `Entry`, whose `getReadings()`
hands them to `setWord` as one text, is not among the sources; the text is taken
to be the sequence joined with a delimiter, which is left open.  The result is
the word entry (not common, without meanings) that `setWord` then observes. -/
def wordEntryOf (delimiter word : QString) (readings : List QString) : Entry :=
  { isKanjidic := false, word := word, readings := QStringList.join readings delimiter,
    meanings := [], common := false }

/-! ## Page navigation history of `Kiten` -/

/-- The enum `Kiten::PageType`, kiten.h 104-108. -/
inductive PageType where
  | SearchResults
  | Kanji
  | Word
  deriving DecidableEq

/-- The `QVariant data` of a page state, kiten.h 112: a `QChar` for a kanji
page, the `QStringList` of word and reading for a word page; `invalid` is the
empty `QVariant`. -/
inductive PageData where
  | invalid
  | char (kanji : QChar)
  | stringList (items : List QString)
  deriving DecidableEq

/-- The struct `Kiten::PageState`, kiten.h 110-113. -/
structure PageState where
  type : PageType
  data : PageData
  deriving DecidableEq

/-- The members `_pageHistory` and `_pageHistoryIndex` of `Kiten`, kiten.h
129-130. -/
structure PageHistory where
  pageHistory : List PageState
  pageHistoryIndex : Int
  deriving DecidableEq

/-- The state that the member initialisers declare, kiten.h 129-130: no entry,
index `-1`. -/
def PageHistory.start : PageHistory :=
  { pageHistory := [], pageHistoryIndex := -1 }

/-- The failures of the navigation operations. -/
inductive NavigationError where
  | NoHistoryError
  deriving DecidableEq

/-- Modelled from the spec: the invariant of `NavigationHistory` (section 3),
`0 <= cursor < len(entries)` whenever `entries` is non-empty and `cursor == -1`
iff `entries` is empty. -/
def PageHistory.Invariant (h : PageHistory) : Prop :=
  (h.pageHistory = [] ∧ h.pageHistoryIndex = -1) ∨
    (0 ≤ h.pageHistoryIndex ∧ h.pageHistoryIndex < (h.pageHistory.length : Int))

/-- Modelled from the spec: `push(state)` (section 4.4), the body of
`Kiten::pushPageState`, which is in kiten.cpp and not among the sources:
truncate `entries` to `[0, cursor]` inclusive, append `state`, set
`cursor = len(entries) - 1`. -/
def PageHistory.push (h : PageHistory) (state : PageState) : PageHistory :=
  let entries := h.pageHistory.take (h.pageHistoryIndex + 1).toNat ++ [state]
  { pageHistory := entries, pageHistoryIndex := (entries.length : Int) - 1 }

/-- Modelled from the spec: `current()` (section 4.4), which is in kiten.cpp
and not among the sources: `entries[cursor]`, or nothing when the stack is
empty. -/
def PageHistory.current (h : PageHistory) : Option PageState :=
  if h.pageHistory = [] ∨ h.pageHistoryIndex < 0 then none
  else h.pageHistory[h.pageHistoryIndex.toNat]?

/-- Modelled from the spec: `back()` (section 4.4), which is in kiten.cpp and
not among the sources: fails with `NoHistoryError` if `cursor <= 0`; otherwise
`cursor -= 1`, return `entries[cursor]`. -/
def PageHistory.back (h : PageHistory) :
    Except NavigationError (Option PageState × PageHistory) :=
  if h.pageHistoryIndex ≤ 0 then
    Except.error NavigationError.NoHistoryError
  else
    let cursor := h.pageHistoryIndex - 1
    Except.ok (h.pageHistory[cursor.toNat]?,
      { pageHistory := h.pageHistory, pageHistoryIndex := cursor })

/-- Modelled from the spec: `forward()` (section 4.4), which is in kiten.cpp
and not among the sources: fails with `NoHistoryError` if
`cursor >= len(entries) - 1`; otherwise `cursor += 1`, return
`entries[cursor]`. -/
def PageHistory.forward (h : PageHistory) :
    Except NavigationError (Option PageState × PageHistory) :=
  if h.pageHistoryIndex ≥ (h.pageHistory.length : Int) - 1 then
    Except.error NavigationError.NoHistoryError
  else
    let cursor := h.pageHistoryIndex + 1
    Except.ok (h.pageHistory[cursor.toNat]?,
      { pageHistory := h.pageHistory, pageHistoryIndex := cursor })

/-- Modelled from the spec: `reset(initialState)` (section 4.4), which is in
kiten.cpp and not among the sources: clears `entries` to `[initialState]`,
`cursor = 0`. -/
def PageHistory.reset (_h : PageHistory) (initialState : PageState) : PageHistory :=
  { pageHistory := [initialState], pageHistoryIndex := 0 }

/-! ## Sample data -/

/-- The word 日本語. -/
def nihongo : QString := [0x65E5, 0x672C, 0x8A9E]

/-- The word 日光. -/
def nikkou : QString := [0x65E5, 0x5149]

/-- The word 猫. -/
def neko : QString := [0x732B]

/-- The reading ねこ. -/
def nekoReading : QString := [0x306D, 0x3053]

/-- The reading びょう. -/
def byouReading : QString := [0x3073, 0x3087, 0x3046]

/-- The reading にほんご. -/
def nihongoReading : QString := [0x306B, 0x307B, 0x3093, 0x3054]

/-- The reading にっこう. -/
def nikkouReading : QString := [0x306B, 0x3063, 0x3053, 0x3046]

/-- A word entry for 日本語 (にほんご), marked common. -/
def nihongoEntry : Entry :=
  { isKanjidic := false, word := nihongo, readings := nihongoReading, meanings := [],
    common := true }

/-- A word entry for 日光 (にっこう), not marked common. -/
def nikkouEntry : Entry :=
  { isKanjidic := false, word := nikkou, readings := nikkouReading, meanings := [],
    common := false }

/-- A word entry for 猫 read びょう. -/
def nekoByouEntry : Entry :=
  { isKanjidic := false, word := neko, readings := byouReading, meanings := [],
    common := false }

/-- A word entry for 猫 read ねこ. -/
def nekoNekoEntry : Entry :=
  { isKanjidic := false, word := neko, readings := nekoReading, meanings := [],
    common := false }

/-- The kanjidic entry of 猫. -/
def nekoKanjidicEntry : Entry :=
  { isKanjidic := true, word := neko, readings := byouReading, meanings := [],
    common := false }

/-- The reading ねこま. -/
def nekomaReading : QString := [0x306D, 0x3053, 0x307E]

/-- The page state of a search-results page. -/
def searchPage : PageState := { type := PageType.SearchResults, data := PageData.invalid }

/-- The page state of the kanji page of 猫. -/
def nekoKanjiPage : PageState := { type := PageType.Kanji, data := PageData.char 0x732B }

/-- The page state of the word page of 猫 (ねこ). -/
def nekoWordPage : PageState :=
  { type := PageType.Word, data := PageData.stringList [neko, nekoReading] }

/-- The page state of the word page of 日光 (にっこう). -/
def nikkouWordPage : PageState :=
  { type := PageType.Word, data := PageData.stringList [nikkou, nikkouReading] }

/-- A word entry for 猫 whose readings text is the one kana with code
`0x3042 + i`. -/
def nekoEntryRead (i : Nat) : Entry :=
  { isKanjidic := false, word := neko, readings := [0x3042 + i], meanings := [],
    common := false }

/-- Seventeen word entries for 猫 that differ in their reading only. -/
def nekoSeventeen : List Entry := (List.range 17).map nekoEntryRead

/-- A word entry whose word is the one ideograph with code `0x4E00 + key` and
whose readings text is the one kana with code `0x3042 + i`. -/
def wordEntryNumbered (key i : Nat) : Entry :=
  { isKanjidic := false, word := [0x4E00 + key], readings := [0x3042 + i], meanings := [],
    common := false }

/-- The words of forty entries, by number: twenty words, each of them twice, in
an order on which the `std::sort` of libstdc++ uses up its depth limit. -/
def fortyWordKeys : List Nat :=
  [19, 0, 18, 1, 17, 2, 16, 3, 18, 4, 16, 5, 19, 6, 15, 7, 17, 8, 10, 9,
    0, 1, 2, 3, 4, 5, 6, 7, 8, 9, 15, 13, 14, 12, 13, 11, 12, 10, 11, 14]

/-- Forty word entries with the words `fortyWordKeys`; entry `i` has the
reading numbered `i`. -/
def fortyEntries : List Entry :=
  (List.zip fortyWordKeys (List.range 40)).map fun p => wordEntryNumbered p.1 p.2

/-! ## Lemmas on `QString.lt` -/

theorem QString.lt_irrefl (s : QString) : QString.lt s s = false := by
  induction s with
  | nil => rfl
  | cons a s ih => simp [QString.lt, ih]

theorem QString.lt_trans :
    ∀ s t u : QString, QString.lt s t = true → QString.lt t u = true → QString.lt s u = true
  | [], [], _, h, _ => by simp [QString.lt] at h
  | [], _ :: _, [], _, h => by simp [QString.lt] at h
  | [], _ :: _, _ :: _, _, _ => by simp [QString.lt]
  | _ :: _, [], _, h, _ => by simp [QString.lt] at h
  | _ :: _, _ :: _, [], _, h => by simp [QString.lt] at h
  | a :: s, b :: t, c :: u, h₁, h₂ => by
    simp only [QString.lt] at h₁ h₂ ⊢
    have ih := QString.lt_trans s t u
    unfold QChar at *
    split_ifs at h₁ h₂ ⊢ <;> first | rfl | omega | exact ih h₁ h₂

theorem QString.eq_of_not_lt :
    ∀ s t : QString, QString.lt s t = false → QString.lt t s = false → s = t
  | [], [], _, _ => rfl
  | [], _ :: _, h, _ => by simp [QString.lt] at h
  | _ :: _, [], _, h => by simp [QString.lt] at h
  | a :: s, b :: t, h₁, h₂ => by
    simp only [QString.lt] at h₁ h₂
    have ih := QString.eq_of_not_lt s t
    unfold QChar at *
    split_ifs at h₁ h₂
    have hab : a = b := by omega
    rw [hab, ih h₁ h₂]

theorem QString.lt_asymm (s t : QString) (h : QString.lt s t = true) :
    QString.lt t s = false := by
  cases h' : QString.lt t s with
  | false => rfl
  | true =>
    have := QString.lt_trans s t s h h'
    rw [QString.lt_irrefl] at this
    exact this.symm

/-- The comparison `QString.lt` is the lexicographic order of the code units. -/
theorem QString.lt_iff_lex :
    ∀ s t : QString, QString.lt s t = true ↔ List.Lex (fun a b : Nat => a < b) s t
  | [], [] => by simp [QString.lt, List.Lex.not_nil_right]
  | [], b :: t => by simp [QString.lt, List.Lex.nil]
  | a :: s, [] => by simp [QString.lt, List.Lex.not_nil_right]
  | a :: s, b :: t => by
    unfold QString.lt
    have ih := QString.lt_iff_lex s t
    unfold QChar at *
    split_ifs with h₁ h₂
    · simp only [true_iff]
      exact List.Lex.rel h₁
    · simp only [Bool.false_eq_true, false_iff]
      intro h
      cases h with
      | cons h => omega
      | rel h => omega
    · have hab : a = b := by omega
      subst hab
      rw [ih]
      constructor
      · exact List.Lex.cons
      · intro h
        cases h with
        | cons h => exact h
        | rel h => omega

/-! ## The comparator of `setKanji` and the sorts -/

theorem compoundLess_irrefl (a : CompoundInfo) : KanjiPage.compoundLess a a = false := by
  simp [KanjiPage.compoundLess, QString.lt_irrefl]

theorem compoundLess_trans (a b c : CompoundInfo)
    (hab : KanjiPage.compoundLess a b = true) (hbc : KanjiPage.compoundLess b c = true) :
    KanjiPage.compoundLess a c = true := by
  unfold KanjiPage.compoundLess at *
  cases ha : a.isCommon <;> cases hb : b.isCommon <;> cases hc : c.isCommon <;>
    simp [ha, hb, hc] at hab hbc ⊢ <;> exact QString.lt_trans _ _ _ hab hbc

/-- Two candidates that the comparator does not order have the same flag and
the same word. -/
theorem compoundLess_incomparable (a b : CompoundInfo)
    (hab : KanjiPage.compoundLess a b = false) (hba : KanjiPage.compoundLess b a = false) :
    a.isCommon = b.isCommon ∧ a.word = b.word := by
  unfold KanjiPage.compoundLess at *
  cases ha : a.isCommon <;> cases hb : b.isCommon <;>
    simp [ha, hb] at hab hba ⊢ <;> exact QString.eq_of_not_lt _ _ hab hba

theorem compoundLess_of_same_key (a b : CompoundInfo)
    (hc : a.isCommon = b.isCommon) (hw : a.word = b.word) :
    KanjiPage.compoundLess a b = false := by
  simp [KanjiPage.compoundLess, hc, hw, QString.lt_irrefl]

theorem compoundLess_strictWeakOrder : StrictWeakOrder KanjiPage.compoundLess := by
  refine ⟨compoundLess_irrefl, compoundLess_trans, ?_⟩
  intro a b c hab hba hbc hcb
  obtain ⟨h₁, h₂⟩ := compoundLess_incomparable a b hab hba
  obtain ⟨h₃, h₄⟩ := compoundLess_incomparable b c hbc hcb
  exact ⟨compoundLess_of_same_key a c (h₁.trans h₃) (h₂.trans h₄),
    compoundLess_of_same_key c a (h₁.trans h₃).symm (h₂.trans h₄).symm⟩

theorem StrictWeakOrder.total {comp : CompoundInfo → CompoundInfo → Bool}
    (h : StrictWeakOrder comp) (a b : CompoundInfo) : comp b a = false ∨ comp a b = false := by
  cases hba : comp b a with
  | false => exact Or.inl rfl
  | true =>
    right
    cases hab : comp a b with
    | false => rfl
    | true =>
      have := h.2.1 a b a hab hba
      rw [h.1 a] at this
      exact this.symm

theorem StrictWeakOrder.not_lt_trans {comp : CompoundInfo → CompoundInfo → Bool}
    (h : StrictWeakOrder comp) (a b c : CompoundInfo)
    (hba : comp b a = false) (hcb : comp c b = false) : comp c a = false := by
  cases hca : comp c a with
  | false => rfl
  | true =>
    exfalso
    cases hbc : comp b c with
    | true =>
      have := h.2.1 b c a hbc hca
      rw [hba] at this
      exact Bool.false_ne_true this
    | false =>
      cases hab : comp a b with
      | true =>
        have := h.2.1 c a b hca hab
        rw [hcb] at this
        exact Bool.false_ne_true this
      | false =>
        have := (h.2.2 a b c hab hba hbc hcb).2
        rw [hca] at this
        exact Bool.false_ne_true this.symm

theorem insertionSort_contract (comp : CompoundInfo → CompoundInfo → Bool)
    (h : StrictWeakOrder comp) (xs : List CompoundInfo) :
    List.Perm (List.insertionSort (fun a b => comp b a = false) xs) xs ∧
      List.Pairwise (fun a b => comp b a = false)
        (List.insertionSort (fun a b => comp b a = false) xs) := by
  haveI : IsTotal CompoundInfo (fun a b => comp b a = false) := ⟨fun a b => h.total a b⟩
  haveI : IsTrans CompoundInfo (fun a b => comp b a = false) :=
    ⟨fun a b c hab hbc => h.not_lt_trans a b c hab hbc⟩
  exact ⟨List.perm_insertionSort _ xs, List.sorted_insertionSort _ xs⟩

theorem insertionStdSort_contract : StdSortContract insertionStdSort := by
  intro comp xs h
  exact insertionSort_contract comp h xs

/-! ## First positions in a result list -/

theorem isFirstIndex_cons_pos (p : Entry → Prop) {e : Entry} (l : List Entry) (k : Nat)
    (h : p e) : IsFirstIndex p (e :: l) k ↔ k = 0 := by
  constructor
  · intro hk
    cases k with
    | zero => rfl
    | succ n => exact absurd h (hk.2 0 (Nat.succ_pos n) e (by simp))
  · rintro rfl
    exact ⟨⟨e, by simp, h⟩, fun j hj => absurd hj (Nat.not_lt_zero j)⟩

theorem isFirstIndex_cons_neg (p : Entry → Prop) {e : Entry} (l : List Entry) (k : Nat)
    (h : ¬ p e) : IsFirstIndex p (e :: l) k ↔ ∃ n, k = n + 1 ∧ IsFirstIndex p l n := by
  constructor
  · intro hk
    cases k with
    | zero =>
      obtain ⟨⟨e', he', hp⟩, _⟩ := hk
      simp at he'
      exact absurd (he' ▸ hp) h
    | succ n =>
      refine ⟨n, rfl, ?_, ?_⟩
      · simpa using hk.1
      · intro j hj e' he'
        exact hk.2 (j + 1) (Nat.succ_lt_succ hj) e' (by simpa using he')
  · rintro ⟨n, rfl, hn⟩
    refine ⟨by simpa using hn.1, ?_⟩
    intro j hj e' he'
    cases j with
    | zero =>
      simp at he'
      exact he' ▸ h
    | succ m => exact hn.2 m (Nat.lt_of_succ_lt_succ hj) e' (by simpa using he')

theorem isFirstIndex_nil (p : Entry → Prop) (k : Nat) : ¬ IsFirstIndex p [] k := by
  rintro ⟨⟨e, he, _⟩, _⟩
  simp at he

theorem isFirstIndex_mem {p : Entry → Prop} {l : List Entry} {k : Nat}
    (h : IsFirstIndex p l k) : ∃ e ∈ l, p e := by
  obtain ⟨⟨e, he, hp⟩, _⟩ := h
  exact ⟨e, List.mem_iff_getElem?.2 ⟨k, he⟩, hp⟩

theorem isFirstIndex_exists (p : Entry → Prop) :
    ∀ l : List Entry, (∃ e ∈ l, p e) → ∃ k, IsFirstIndex p l k
  | [], h => by
    obtain ⟨e, he, _⟩ := h
    simp at he
  | a :: l, h => by
    by_cases ha : p a
    · exact ⟨0, (isFirstIndex_cons_pos p l 0 ha).2 rfl⟩
    · obtain ⟨e, he, hp⟩ := h
      have hl : ∃ e ∈ l, p e := by
        rcases List.mem_cons.1 he with rfl | he
        · exact absurd hp ha
        · exact ⟨e, he, hp⟩
      obtain ⟨n, hn⟩ := isFirstIndex_exists p l hl
      exact ⟨n + 1, (isFirstIndex_cons_neg p l (n + 1) ha).2 ⟨n, rfl, hn⟩⟩

theorem isFirstIndex_unique {p : Entry → Prop} {l : List Entry} {i j : Nat}
    (hi : IsFirstIndex p l i) (hj : IsFirstIndex p l j) : i = j := by
  rcases Nat.lt_trichotomy i j with h | h | h
  · obtain ⟨e, he, hp⟩ := hi.1
    exact absurd hp (hj.2 i h e he)
  · exact h
  · obtain ⟨e, he, hp⟩ := hj.1
    exact absurd hp (hi.2 j h e he)

/-! ## The loops that look for one entry -/

theorem findKanjiEntry_eq_some :
    ∀ (l : List Entry) (i k : Nat),
      KanjiPage.findKanjiEntry l i = some k ↔
        ∃ n, k = i + n ∧ IsFirstIndex (fun e => e.isKanjidic = true) l n
  | [], i, k => by
    simp [KanjiPage.findKanjiEntry, isFirstIndex_nil]
  | e :: l, i, k => by
    unfold KanjiPage.findKanjiEntry
    by_cases h : e.isKanjidic = true
    · rw [if_pos h]
      constructor
      · intro hk
        exact ⟨0, by simpa using hk.symm, (isFirstIndex_cons_pos _ l 0 h).2 rfl⟩
      · rintro ⟨n, rfl, hn⟩
        rw [(isFirstIndex_cons_pos _ l n h).1 hn]
        rfl
    · rw [if_neg h, findKanjiEntry_eq_some l (i + 1) k]
      constructor
      · rintro ⟨n, rfl, hn⟩
        exact ⟨n + 1, by omega, (isFirstIndex_cons_neg _ l (n + 1) h).2 ⟨n, rfl, hn⟩⟩
      · rintro ⟨m, rfl, hm⟩
        obtain ⟨n, rfl, hn⟩ := (isFirstIndex_cons_neg _ l m h).1 hm
        exact ⟨n, by omega, hn⟩

theorem findKanjiEntry_eq_none :
    ∀ (l : List Entry) (i : Nat),
      KanjiPage.findKanjiEntry l i = none ↔ ∀ e ∈ l, e.isKanjidic = false
  | [], i => by simp [KanjiPage.findKanjiEntry]
  | e :: l, i => by
    unfold KanjiPage.findKanjiEntry
    cases h : e.isKanjidic <;> simp [h, findKanjiEntry_eq_none l (i + 1)]

theorem firstNonKanjidic_eq_some :
    ∀ (l : List Entry) (i k : Nat),
      WordPage.firstNonKanjidic l i = some k ↔
        ∃ n, k = i + n ∧ IsFirstIndex (fun e => e.isKanjidic = false) l n
  | [], i, k => by
    simp [WordPage.firstNonKanjidic, isFirstIndex_nil]
  | e :: l, i, k => by
    unfold WordPage.firstNonKanjidic
    by_cases h : e.isKanjidic = false
    · have hc : (!e.isKanjidic) = true := by simp [h]
      rw [if_pos hc]
      constructor
      · intro hk
        exact ⟨0, by simpa using hk.symm, (isFirstIndex_cons_pos _ l 0 h).2 rfl⟩
      · rintro ⟨n, rfl, hn⟩
        rw [(isFirstIndex_cons_pos _ l n h).1 hn]
        rfl
    · have hc : ¬ (!e.isKanjidic) = true := by simpa using h
      rw [if_neg hc, firstNonKanjidic_eq_some l (i + 1) k]
      constructor
      · rintro ⟨n, rfl, hn⟩
        exact ⟨n + 1, by omega, (isFirstIndex_cons_neg _ l (n + 1) h).2 ⟨n, rfl, hn⟩⟩
      · rintro ⟨m, rfl, hm⟩
        obtain ⟨n, rfl, hn⟩ := (isFirstIndex_cons_neg _ l m h).1 hm
        exact ⟨n, by omega, hn⟩

theorem firstNonKanjidic_eq_none :
    ∀ (l : List Entry) (i : Nat),
      WordPage.firstNonKanjidic l i = none ↔ ∀ e ∈ l, e.isKanjidic = true
  | [], i => by simp [WordPage.firstNonKanjidic]
  | e :: l, i => by
    unfold WordPage.firstNonKanjidic
    cases h : e.isKanjidic <;> simp [h, firstNonKanjidic_eq_none l (i + 1)]

/-! ## The first loop of `setWord` -/

/-- When no non-kanjidic entry has the query as its word, the loop leaves
`bestEntry` as it was. -/
theorem scanBestEntry_no_word_match (word reading : QString) :
    ∀ (l : List Entry) (i : Nat) (best : Option Nat),
      (∀ e ∈ l, ¬ (e.isKanjidic = false ∧ e.word = word)) →
      WordPage.scanBestEntry word reading l i best = best
  | [], _, _, _ => rfl
  | e :: l, i, best, h => by
    have ih := scanBestEntry_no_word_match word reading l (i + 1) best
      (fun e' he' => h e' (List.mem_cons_of_mem _ he'))
    have he := h e (List.mem_cons_self _ _)
    unfold WordPage.scanBestEntry
    split_ifs with c₁ c₂ c₃ c₄
    · exact ih
    · exact absurd ⟨by simpa using c₁, c₂⟩ he
    · exact absurd ⟨by simpa using c₁, c₂⟩ he
    · exact absurd ⟨by simpa using c₁, c₂⟩ he
    · exact ih

/-- Whatever the loop ends on is the `bestEntry` it started with or the index
of a non-kanjidic entry of the list. -/
theorem scanBestEntry_sound (word reading : QString) :
    ∀ (l : List Entry) (i : Nat) (best : Option Nat) (k : Nat),
      WordPage.scanBestEntry word reading l i best = some k →
      best = some k ∨ ∃ n e, k = i + n ∧ l[n]? = some e ∧ e.isKanjidic = false
  | [], _, _, _, h => Or.inl h
  | e :: l, i, best, k, h => by
    have ih := fun b hb => scanBestEntry_sound word reading l (i + 1) b k hb
    have lift : (∃ n e', k = i + 1 + n ∧ l[n]? = some e' ∧ e'.isKanjidic = false) →
        ∃ n e', k = i + n ∧ (e :: l)[n]? = some e' ∧ e'.isKanjidic = false := by
      rintro ⟨n, e', rfl, hn, hk⟩
      exact ⟨n + 1, e', by omega, by simpa using hn, hk⟩
    have here : e.isKanjidic = false →
        ∃ n e', i = i + n ∧ (e :: l)[n]? = some e' ∧ e'.isKanjidic = false :=
      fun hk => ⟨0, e, rfl, by simp, hk⟩
    unfold WordPage.scanBestEntry at h
    split_ifs at h with c₁ c₂ c₃ c₄
    · exact (ih _ h).imp id lift
    · have hk : i = k := by simpa using h
      subst hk
      exact Or.inr (here (by simpa using c₁))
    · rcases ih _ h with hb | hb
      · have hk : i = k := by simpa using hb
        subst hk
        exact Or.inr (here (by simpa using c₁))
      · exact Or.inr (lift hb)
    · exact (ih _ h).imp id lift
    · exact (ih _ h).imp id lift

/-- The `bestEntry` of the rendered page is the one the two loops leave. -/
theorem setWord_bestEntry (word reading : QString) (results : List Entry) :
    (WordPage.setWord word reading results).bestEntry =
      WordPage.bestEntry word reading results := by
  cases h : ((WordPage.bestEntry word reading results).bind fun i => results[i]?) <;>
    simp [WordPage.setWord, h]

/-! ## The loops that build lists -/

theorem collectCompounds_eq :
    ∀ (l : List Entry) (compounds : List CompoundInfo),
      KanjiPage.collectCompounds l compounds =
        compounds ++ (l.filter fun e => !e.isKanjidic).map KanjiPage.compoundInfo
  | [], compounds => by simp [KanjiPage.collectCompounds]
  | e :: l, compounds => by
    unfold KanjiPage.collectCompounds
    cases h : e.isKanjidic <;> simp [h, collectCompounds_eq l]

theorem collectKanjiChars_eq :
    ∀ (s : QString) (kanjiChars : List QChar),
      WordPage.collectKanjiChars s kanjiChars =
        kanjiChars ++ s.filter WordPage.isCJKCharacter
  | [], kanjiChars => by simp [WordPage.collectKanjiChars]
  | ch :: s, kanjiChars => by
    unfold WordPage.collectKanjiChars
    cases h : WordPage.isCJKCharacter ch <;> simp [h, collectKanjiChars_eq s]

/-- Visiting the indices below `limit` in order reads the first `limit`
elements. -/
theorem range_filterMap_getElem? (xs : List CompoundInfo) :
    ∀ limit : Nat, ((List.range limit).filterMap fun i => xs[i]?) = xs.take limit
  | 0 => by simp
  | limit + 1 => by
    rw [List.range_succ, List.filterMap_append, range_filterMap_getElem? xs limit,
      List.take_succ]
    cases h : xs[limit]? <;> simp [h]

theorem perm_pair_cases {a b : CompoundInfo} {l : List CompoundInfo}
    (h : List.Perm l [a, b]) : l = [a, b] ∨ l = [b, a] := by
  have hlen := h.length_eq
  match l, hlen with
  | [x, y], _ =>
    have hx : x ∈ [a, b] := h.subset (List.mem_cons_self _ _)
    simp only [List.mem_cons, List.mem_singleton, List.not_mem_nil, or_false] at hx
    rcases hx with rfl | rfl
    · have := List.perm_singleton.1 h.cons_inv
      exact Or.inl (by rw [this])
    · have h' : List.Perm [x, y] [x, a] := h.trans (List.Perm.swap _ _ _)
      have := List.perm_singleton.1 h'.cons_inv
      exact Or.inr (by rw [this])

/-! ## What `setKanji` computes -/

theorem kanjiEntry_eq_findKanjiEntry
    (sort : (CompoundInfo → CompoundInfo → Bool) → List CompoundInfo → List CompoundInfo)
    (kanjiResults compoundResults : List Entry) :
    (KanjiPage.setKanji sort kanjiResults compoundResults).kanjiEntry =
      KanjiPage.findKanjiEntry kanjiResults 0 := by
  unfold KanjiPage.setKanji
  split_ifs <;> rfl

theorem setKanji_compounds_eq
    (sort : (CompoundInfo → CompoundInfo → Bool) → List CompoundInfo → List CompoundInfo)
    (hsort : StdSortContract sort) (kanjiResults compoundResults : List Entry) :
    (KanjiPage.setKanji sort kanjiResults compoundResults).compounds =
      sort KanjiPage.compoundLess
        ((compoundResults.filter fun e => !e.isKanjidic).map KanjiPage.compoundInfo) := by
  unfold KanjiPage.setKanji
  split_ifs with h
  · simp [collectCompounds_eq]
  · have hnil : compoundResults = [] := by
      cases compoundResults with
      | nil => rfl
      | cons e l => simp at h
    subst hnil
    have := (hsort KanjiPage.compoundLess [] compoundLess_strictWeakOrder).1
    simp [List.perm_nil.1 this]

theorem setKanji_shown_eq
    (sort : (CompoundInfo → CompoundInfo → Bool) → List CompoundInfo → List CompoundInfo)
    (kanjiResults compoundResults : List Entry) :
    (KanjiPage.setKanji sort kanjiResults compoundResults).shown =
      (KanjiPage.setKanji sort kanjiResults compoundResults).compounds.take
        (min (KanjiPage.setKanji sort kanjiResults compoundResults).compounds.length 50) := by
  unfold KanjiPage.setKanji
  split_ifs with h
  · simp only [range_filterMap_getElem?]
  · simp

theorem setKanji_more_eq
    (sort : (CompoundInfo → CompoundInfo → Bool) → List CompoundInfo → List CompoundInfo)
    (kanjiResults compoundResults : List Entry) :
    (KanjiPage.setKanji sort kanjiResults compoundResults).more =
      if 50 < (KanjiPage.setKanji sort kanjiResults compoundResults).compounds.length then
        some ((KanjiPage.setKanji sort kanjiResults compoundResults).compounds.length - 50)
      else none := by
  unfold KanjiPage.setKanji
  split_ifs <;> simp at * <;> omega

/-- What "not smaller than an earlier one", by the comparator, means for two
candidates. -/
theorem compoundLess_eq_false_iff (a b : CompoundInfo) :
    KanjiPage.compoundLess b a = false ↔
      ¬ (a.isCommon = false ∧ b.isCommon = true) ∧
        (a.isCommon = b.isCommon → QString.lt b.word a.word = false) := by
  unfold KanjiPage.compoundLess
  cases ha : a.isCommon <;> cases hb : b.isCommon <;> simp

/-! ## Properties of the pages -/

/-- C1: for every 16-bit character code `c`, each of the three copies of
`isCJKCharacter` (KanjiPage, WordPage, SearchResultsPage) returns true exactly
when `c ≥ 255` and `c` is outside the inclusive range `[0x3040, 0x30FF]`; the
functions are total. -/
theorem isCJKCharacter_iff (c : QChar) (hc : c < 65536) :
    (KanjiPage.isCJKCharacter c = true ↔ 255 ≤ c ∧ ¬ (0x3040 ≤ c ∧ c ≤ 0x30FF)) ∧
    (WordPage.isCJKCharacter c = true ↔ 255 ≤ c ∧ ¬ (0x3040 ≤ c ∧ c ≤ 0x30FF)) ∧
    (SearchResultsPage.isCJKCharacter c = true ↔ 255 ≤ c ∧ ¬ (0x3040 ≤ c ∧ c ≤ 0x30FF)) := by
  have hu : QChar.unicode c = c := Nat.mod_eq_of_lt hc
  unfold KanjiPage.isCJKCharacter WordPage.isCJKCharacter SearchResultsPage.isCJKCharacter
  simp only [hu]
  unfold QChar at *
  refine ⟨?_, ?_, ?_⟩ <;> split_ifs <;> simp <;> omega

/-- The statement of C1 at the code of 猫 (an ideograph), which all three
copies accept. -/
theorem isCJKCharacter_iff_witness :
    (0x732B : QChar) < 65536 ∧
    ((KanjiPage.isCJKCharacter 0x732B = true ↔
        255 ≤ (0x732B : QChar) ∧ ¬ (0x3040 ≤ (0x732B : QChar) ∧ (0x732B : QChar) ≤ 0x30FF)) ∧
      (WordPage.isCJKCharacter 0x732B = true ↔
        255 ≤ (0x732B : QChar) ∧ ¬ (0x3040 ≤ (0x732B : QChar) ∧ (0x732B : QChar) ≤ 0x30FF)) ∧
      (SearchResultsPage.isCJKCharacter 0x732B = true ↔
        255 ≤ (0x732B : QChar) ∧ ¬ (0x3040 ≤ (0x732B : QChar) ∧ (0x732B : QChar) ≤ 0x30FF))) ∧
    KanjiPage.isCJKCharacter 0x732B = true ∧
    KanjiPage.isCJKCharacter 0x306D = false ∧
    KanjiPage.isCJKCharacter 0x41 = false :=
  ⟨by decide, isCJKCharacter_iff 0x732B (by decide), by decide, by decide, by decide⟩

/-- C2: for every list of compound search results (and every conforming
`std::sort`), in the sorted candidate list of `setKanji`, and in the part of it
that is shown, no non-common candidate precedes a common one, and of two
candidates with the same `isCommon` flag the word of the later one is not
smaller than the word of the earlier one.  For the entries 日本語 (common) and 日光 (not common),
in either order, 日本語 is shown before 日光. -/
theorem setKanji_compounds_sorted
    (sort : (CompoundInfo → CompoundInfo → Bool) → List CompoundInfo → List CompoundInfo)
    (hsort : StdSortContract sort) (kanjiResults compoundResults : List Entry) :
    List.Pairwise
        (fun a b => ¬ (a.isCommon = false ∧ b.isCommon = true) ∧
          (a.isCommon = b.isCommon → QString.lt b.word a.word = false))
        (KanjiPage.setKanji sort kanjiResults compoundResults).compounds ∧
    List.Pairwise
        (fun a b => ¬ (a.isCommon = false ∧ b.isCommon = true) ∧
          (a.isCommon = b.isCommon → QString.lt b.word a.word = false))
        (KanjiPage.setKanji sort kanjiResults compoundResults).shown ∧
    (KanjiPage.setKanji sort kanjiResults [nihongoEntry, nikkouEntry]).shown =
        [KanjiPage.compoundInfo nihongoEntry, KanjiPage.compoundInfo nikkouEntry] ∧
    (KanjiPage.setKanji sort kanjiResults [nikkouEntry, nihongoEntry]).shown =
        [KanjiPage.compoundInfo nihongoEntry, KanjiPage.compoundInfo nikkouEntry] := by
  have key : ∀ cr, List.Pairwise
      (fun a b => ¬ (a.isCommon = false ∧ b.isCommon = true) ∧
        (a.isCommon = b.isCommon → QString.lt b.word a.word = false))
      (KanjiPage.setKanji sort kanjiResults cr).compounds := by
    intro cr
    rw [setKanji_compounds_eq sort hsort]
    exact (hsort KanjiPage.compoundLess _ compoundLess_strictWeakOrder).2.imp
      (fun {a b} h => (compoundLess_eq_false_iff a b).1 h)
  have pair : ∀ cr, List.Perm ((cr.filter fun e => !e.isKanjidic).map KanjiPage.compoundInfo)
      [KanjiPage.compoundInfo nihongoEntry, KanjiPage.compoundInfo nikkouEntry] →
      (KanjiPage.setKanji sort kanjiResults cr).shown =
        [KanjiPage.compoundInfo nihongoEntry, KanjiPage.compoundInfo nikkouEntry] := by
    intro cr hcr
    have hk := key cr
    rw [setKanji_shown_eq]
    rw [setKanji_compounds_eq sort hsort] at hk ⊢
    have hp := ((hsort KanjiPage.compoundLess _ compoundLess_strictWeakOrder).1).trans hcr
    rcases perm_pair_cases hp with h | h
    · rw [h]
      rfl
    · rw [h] at hk
      have := (List.pairwise_cons.1 hk).1 _ (List.mem_cons_self _ _)
      exact absurd ⟨rfl, rfl⟩ this.1
  refine ⟨key _, ?_, pair _ (List.Perm.refl _), pair _ (List.Perm.swap _ _ _)⟩
  rw [setKanji_shown_eq]
  exact (key _).sublist (List.take_sublist _ _)

/-- The statement of C2 for insertion sort as the `std::sort` and the result
list 日光, 日本語. -/
theorem setKanji_compounds_sorted_witness :
    StdSortContract insertionStdSort ∧
    (List.Pairwise
        (fun a b => ¬ (a.isCommon = false ∧ b.isCommon = true) ∧
          (a.isCommon = b.isCommon → QString.lt b.word a.word = false))
        (KanjiPage.setKanji insertionStdSort [] [nikkouEntry, nihongoEntry]).compounds ∧
      List.Pairwise
        (fun a b => ¬ (a.isCommon = false ∧ b.isCommon = true) ∧
          (a.isCommon = b.isCommon → QString.lt b.word a.word = false))
        (KanjiPage.setKanji insertionStdSort [] [nikkouEntry, nihongoEntry]).shown ∧
      (KanjiPage.setKanji insertionStdSort [] [nihongoEntry, nikkouEntry]).shown =
        [KanjiPage.compoundInfo nihongoEntry, KanjiPage.compoundInfo nikkouEntry] ∧
      (KanjiPage.setKanji insertionStdSort [] [nikkouEntry, nihongoEntry]).shown =
        [KanjiPage.compoundInfo nihongoEntry, KanjiPage.compoundInfo nikkouEntry]) :=
  ⟨insertionStdSort_contract,
    setKanji_compounds_sorted insertionStdSort insertionStdSort_contract []
      [nikkouEntry, nihongoEntry]⟩

/-- C3: for every list of compound search results with `N` non-kanjidic
entries (and every conforming `std::sort`), `setKanji` shows exactly
`min N 50` candidates, never more than 50, namely the first `min N 50` of the
sorted list; the "...and %1 more" line is written exactly when `N > 50`, then
with the number `N - 50`, so that the remaining count is `max 0 (N - 50)`. -/
theorem setKanji_limit
    (sort : (CompoundInfo → CompoundInfo → Bool) → List CompoundInfo → List CompoundInfo)
    (hsort : StdSortContract sort) (kanjiResults compoundResults : List Entry) :
    (KanjiPage.setKanji sort kanjiResults compoundResults).shown.length =
        min (compoundResults.filter fun e => !e.isKanjidic).length 50 ∧
    (KanjiPage.setKanji sort kanjiResults compoundResults).shown.length ≤ 50 ∧
    (KanjiPage.setKanji sort kanjiResults compoundResults).shown =
        (KanjiPage.setKanji sort kanjiResults compoundResults).compounds.take
          (min (compoundResults.filter fun e => !e.isKanjidic).length 50) ∧
    ((KanjiPage.setKanji sort kanjiResults compoundResults).more.isSome = true ↔
        50 < (compoundResults.filter fun e => !e.isKanjidic).length) ∧
    (∀ k, (KanjiPage.setKanji sort kanjiResults compoundResults).more = some k →
        k = (compoundResults.filter fun e => !e.isKanjidic).length - 50) ∧
    (((KanjiPage.setKanji sort kanjiResults compoundResults).more.getD 0 : Nat) : Int) =
        max 0 (((compoundResults.filter fun e => !e.isKanjidic).length : Int) - 50) := by
  have hlen : (KanjiPage.setKanji sort kanjiResults compoundResults).compounds.length =
      (compoundResults.filter fun e => !e.isKanjidic).length := by
    rw [setKanji_compounds_eq sort hsort,
      (hsort KanjiPage.compoundLess _ compoundLess_strictWeakOrder).1.length_eq, List.length_map]
  have hshown := setKanji_shown_eq sort kanjiResults compoundResults
  have hmore := setKanji_more_eq sort kanjiResults compoundResults
  rw [hlen] at hshown hmore
  refine ⟨?_, ?_, hshown, ?_, ?_, ?_⟩
  · rw [hshown, List.length_take, hlen]
    omega
  · rw [hshown, List.length_take]
    omega
  · rw [hmore]
    split_ifs with h <;> simp [h]
  · intro k hk
    rw [hmore] at hk
    split_ifs at hk with h
    · exact (Option.some.inj hk).symm
  · rw [hmore]
    split_ifs with h
    · simp only [Option.getD_some]
      omega
    · simp only [Option.getD_none]
      omega

/-- The statement of C3 for insertion sort and 51 copies of one word entry: 50
are shown and the line reads "...and 1 more". -/
theorem setKanji_limit_witness :
    StdSortContract insertionStdSort ∧
    (KanjiPage.setKanji insertionStdSort []
        (List.replicate 51 nikkouEntry)).shown.length =
      min ((List.replicate 51 nikkouEntry).filter fun e => !e.isKanjidic).length 50 ∧
    (KanjiPage.setKanji insertionStdSort [] (List.replicate 51 nikkouEntry)).shown.length
      ≤ 50 ∧
    (KanjiPage.setKanji insertionStdSort [] (List.replicate 51 nikkouEntry)).more = some 1 :=
  have h := setKanji_limit insertionStdSort insertionStdSort_contract []
    (List.replicate 51 nikkouEntry)
  ⟨insertionStdSort_contract, h.1, h.2.1, by
    have h51 : ((List.replicate 51 nikkouEntry).filter fun e => !e.isKanjidic).length = 51 := by
      simp [nikkouEntry]
    have hsome := h.2.2.2.1.2 (by rw [h51]; decide)
    obtain ⟨k, hk⟩ := Option.isSome_iff_exists.1 hsome
    rw [hk, h.2.2.2.2.1 k hk, h51]⟩

/-- C7: for every list of reference search results, the entry `setKanji`
selects as `kanjiEntry` is the first entry of the list that is an
`EntryKanjidic`, and it is absent exactly when the list holds none. -/
theorem setKanji_kanjiEntry
    (sort : (CompoundInfo → CompoundInfo → Bool) → List CompoundInfo → List CompoundInfo)
    (kanjiResults compoundResults : List Entry) :
    (∀ i, (KanjiPage.setKanji sort kanjiResults compoundResults).kanjiEntry = some i ↔
        IsFirstIndex (fun e => e.isKanjidic = true) kanjiResults i) ∧
    ((KanjiPage.setKanji sort kanjiResults compoundResults).kanjiEntry = none ↔
        ∀ e ∈ kanjiResults, e.isKanjidic = false) := by
  rw [kanjiEntry_eq_findKanjiEntry]
  refine ⟨fun i => ?_, findKanjiEntry_eq_none kanjiResults 0⟩
  rw [findKanjiEntry_eq_some]
  constructor
  · rintro ⟨n, hn, h⟩
    rw [Nat.zero_add] at hn
    exact hn ▸ h
  · intro h
    exact ⟨i, (Nat.zero_add i).symm, h⟩

/-- C8: for every list of compound search results (and every conforming
`std::sort`), the full candidate list of `setKanji` is a permutation of the
candidates made, one each, from the non-kanjidic entries of the results; its
length is the number of those entries, and every candidate in it comes from a
non-kanjidic entry of the results. -/
theorem setKanji_compounds_perm
    (sort : (CompoundInfo → CompoundInfo → Bool) → List CompoundInfo → List CompoundInfo)
    (hsort : StdSortContract sort) (kanjiResults compoundResults : List Entry) :
    List.Perm (KanjiPage.setKanji sort kanjiResults compoundResults).compounds
        ((compoundResults.filter fun e => !e.isKanjidic).map fun e =>
          { word := e.word, reading := e.readings, meaning := e.meanings,
            isCommon := e.common }) ∧
    (KanjiPage.setKanji sort kanjiResults compoundResults).compounds.length =
        (compoundResults.filter fun e => !e.isKanjidic).length ∧
    ∀ c ∈ (KanjiPage.setKanji sort kanjiResults compoundResults).compounds,
      ∃ e ∈ compoundResults, e.isKanjidic = false ∧
        c = { word := e.word, reading := e.readings, meaning := e.meanings,
              isCommon := e.common } := by
  have hp : List.Perm (KanjiPage.setKanji sort kanjiResults compoundResults).compounds
      ((compoundResults.filter fun e => !e.isKanjidic).map KanjiPage.compoundInfo) := by
    rw [setKanji_compounds_eq sort hsort]
    exact (hsort KanjiPage.compoundLess _ compoundLess_strictWeakOrder).1
  refine ⟨hp, ?_, ?_⟩
  · rw [hp.length_eq, List.length_map]
  · intro c hc
    obtain ⟨e, he, rfl⟩ := List.mem_map.1 (hp.subset hc)
    obtain ⟨hm, hk⟩ := List.mem_filter.1 he
    exact ⟨e, hm, by simpa using hk, rfl⟩

/-- The statement of C8 for insertion sort and the result list 猫 (kanjidic),
日光, 日本語. -/
theorem setKanji_compounds_perm_witness :
    StdSortContract insertionStdSort ∧
    (KanjiPage.setKanji insertionStdSort []
        [nekoKanjidicEntry, nikkouEntry, nihongoEntry]).compounds.length =
      ([nekoKanjidicEntry, nikkouEntry, nihongoEntry].filter fun e => !e.isKanjidic).length ∧
    (KanjiPage.setKanji insertionStdSort []
        [nekoKanjidicEntry, nikkouEntry, nihongoEntry]).compounds =
      [KanjiPage.compoundInfo nihongoEntry, KanjiPage.compoundInfo nikkouEntry] :=
  ⟨insertionStdSort_contract,
    (setKanji_compounds_perm insertionStdSort insertionStdSort_contract []
      [nekoKanjidicEntry, nikkouEntry, nihongoEntry]).2.1, by decide⟩

/-! ## Containment in a readings text -/

theorem QString.startsWith_append (p s : QString) : QString.startsWith (p ++ s) p = true := by
  induction p with
  | nil => cases s <;> rfl
  | cons a p ih => simp [QString.startsWith, ih]

/-- C6: for every query word, reading hint and result list: when no
non-kanjidic entry has the query as its word, the `bestEntry` of `setWord` is
the first non-kanjidic entry of the list; in every case it is absent exactly
when the list holds no non-kanjidic entry, and when present it is a
non-kanjidic entry of the list. -/
theorem setWord_fallback (word reading : QString) (results : List Entry) :
    ((¬ ∃ e ∈ results, e.isKanjidic = false ∧ e.word = word) →
      ∀ i, (WordPage.setWord word reading results).bestEntry = some i ↔
        IsFirstIndex (fun e => e.isKanjidic = false) results i) ∧
    ((WordPage.setWord word reading results).bestEntry = none ↔
      ∀ e ∈ results, e.isKanjidic = true) ∧
    (∀ i, (WordPage.setWord word reading results).bestEntry = some i →
      ∃ e, results[i]? = some e ∧ e.isKanjidic = false) := by
  rw [setWord_bestEntry]
  have hfirst : ∀ i, WordPage.firstNonKanjidic results 0 = some i ↔
      IsFirstIndex (fun e => e.isKanjidic = false) results i := by
    intro i
    rw [firstNonKanjidic_eq_some]
    constructor
    · rintro ⟨n, hn, h⟩
      rw [Nat.zero_add] at hn
      exact hn ▸ h
    · intro h
      exact ⟨i, (Nat.zero_add i).symm, h⟩
  have hsound : ∀ i, WordPage.bestEntry word reading results = some i →
      ∃ e, results[i]? = some e ∧ e.isKanjidic = false := by
    intro i hi
    unfold WordPage.bestEntry at hi
    cases hs : WordPage.scanBestEntry word reading results 0 none with
    | none =>
      simp only [hs, Option.isNone_none, if_true] at hi
      exact ((hfirst i).1 hi).1
    | some k =>
      simp only [hs, Option.isNone_some, Bool.false_eq_true, if_false] at hi
      have hk : k = i := Option.some.inj hi
      subst hk
      rcases scanBestEntry_sound word reading results 0 none k hs with h | ⟨n, e, hn, he, hk⟩
      · exact absurd h (by simp)
      · rw [Nat.zero_add] at hn
        exact ⟨e, hn ▸ he, hk⟩
  refine ⟨?_, ?_, hsound⟩
  · intro hno i
    have hno' : ∀ e ∈ results, ¬ (e.isKanjidic = false ∧ e.word = word) :=
      fun e he h => hno ⟨e, he, h⟩
    unfold WordPage.bestEntry
    rw [scanBestEntry_no_word_match word reading results 0 none hno']
    simpa using hfirst i
  · constructor
    · intro hnone e he
      cases hk : e.isKanjidic with
      | true => rfl
      | false =>
        exfalso
        obtain ⟨n, hn⟩ := isFirstIndex_exists (fun e => e.isKanjidic = false) results
          ⟨e, he, hk⟩
        have hf := (hfirst n).2 hn
        unfold WordPage.bestEntry at hnone
        cases hs : WordPage.scanBestEntry word reading results 0 none with
        | none =>
          simp only [hs, Option.isNone_none, if_true] at hnone
          rw [hnone] at hf
          exact absurd hf (by simp)
        | some k =>
          simp [hs] at hnone
    · intro hall
      cases hb : WordPage.bestEntry word reading results with
      | none => rfl
      | some i =>
        obtain ⟨e, he, hk⟩ := hsound i hb
        have := hall e (List.mem_iff_getElem?.2 ⟨i, he⟩)
        rw [hk] at this
        exact absurd this (by decide)

/-- The statement of C6 for the query 猫 over the kanjidic entry of 猫 followed
by the word entries 日光 and 日本語: no word matches and 日光 is selected. -/
theorem setWord_fallback_witness :
    (¬ ∃ e ∈ [nekoKanjidicEntry, nikkouEntry, nihongoEntry],
      e.isKanjidic = false ∧ e.word = neko) ∧
    (∀ i, (WordPage.setWord neko nekoReading
        [nekoKanjidicEntry, nikkouEntry, nihongoEntry]).bestEntry = some i ↔
      IsFirstIndex (fun e => e.isKanjidic = false)
        [nekoKanjidicEntry, nikkouEntry, nihongoEntry] i) ∧
    (WordPage.setWord neko nekoReading
      [nekoKanjidicEntry, nikkouEntry, nihongoEntry]).bestEntry = some 1 ∧
    (WordPage.setWord neko nekoReading [nekoKanjidicEntry]).bestEntry = none :=
  have hno : ¬ ∃ e ∈ [nekoKanjidicEntry, nikkouEntry, nihongoEntry],
      e.isKanjidic = false ∧ e.word = neko := by decide
  ⟨hno,
    (setWord_fallback neko nekoReading [nekoKanjidicEntry, nikkouEntry, nihongoEntry]).1 hno,
    by decide, by decide⟩

/-- C9: for every string `s`, the list `kanjiChars` that `setWord` computes for
it is the characters of `s` accepted by `isCJKCharacter`, in order and with
repetitions; so it is a subsequence of `s` no longer than `s`, each element is
accepted by `isCJKCharacter`, the empty string gives the empty list (and 食べ物食
gives 食, 物, 食), and computing it again on the result changes nothing.  In `setWord` it is computed
on the word of `bestEntry`. -/
theorem kanjiChars_eq_filter (s : QString) :
    WordPage.kanjiChars s = s.filter WordPage.isCJKCharacter ∧
    List.Sublist (WordPage.kanjiChars s) s ∧
    (WordPage.kanjiChars s).length ≤ s.length ∧
    (∀ ch ∈ WordPage.kanjiChars s, WordPage.isCJKCharacter ch = true) ∧
    WordPage.kanjiChars [] = [] ∧
    WordPage.kanjiChars [0x98DF, 0x3079, 0x7269, 0x98DF] = [0x98DF, 0x7269, 0x98DF] ∧
    WordPage.kanjiChars (WordPage.kanjiChars s) = WordPage.kanjiChars s ∧
    (∀ (reading : QString) (results : List Entry) (i : Nat) (entry : Entry),
      (WordPage.setWord s reading results).bestEntry = some i → results[i]? = some entry →
      (WordPage.setWord s reading results).kanjiChars =
        entry.word.filter WordPage.isCJKCharacter) := by
  have h : ∀ t : QString, WordPage.kanjiChars t = t.filter WordPage.isCJKCharacter := by
    intro t
    simp [WordPage.kanjiChars, collectKanjiChars_eq]
  refine ⟨h s, ?_, ?_, ?_, rfl, by decide, ?_, ?_⟩
  · rw [h]
    exact List.filter_sublist s
  · rw [h]
    exact List.length_filter_le _ s
  · intro ch hch
    rw [h] at hch
    exact (List.mem_filter.1 hch).2
  · rw [h, h, List.filter_filter]
    simp
  · intro reading results i entry hi he
    rw [setWord_bestEntry] at hi
    simp [WordPage.setWord, hi, he, h]

set_option maxRecDepth 1000000 in
/-- C10, as the claim states it, fails on the `std::sort` of libstdc++.  For
seventeen word entries of 猫 that differ only in their reading (same word, same
flag), the sorted list holds the candidates in the order 8, 16, 15, 14, 13, 12,
11, 10, 9, 0, 7, 6, 5, 4, 3, 2, 1 of their positions in the search results, so
the candidates with equal keys are not in search-result order.  For forty
entries with twenty words, each of them twice, the two candidates of the
thirteenth word come out as entry 36, then entry 33.  (For the two entries
猫/ねこ, 猫/びょう the order is kept.) -/
theorem setKanji_sort_not_stable :
    (KanjiPage.setKanji Stl.gnuStdSort [] nekoSeventeen).compounds =
      [8, 16, 15, 14, 13, 12, 11, 10, 9, 0, 7, 6, 5, 4, 3, 2, 1].map
        (fun i => KanjiPage.compoundInfo (nekoEntryRead i)) ∧
    ((KanjiPage.setKanji Stl.gnuStdSort [] nekoSeventeen).compounds.filter
        fun x => x.isCommon == false && x.word == neko) ≠
      (((nekoSeventeen.filter fun e => !e.isKanjidic).map
        KanjiPage.compoundInfo).filter fun x => x.isCommon == false && x.word == neko) ∧
    (KanjiPage.setKanji Stl.gnuStdSort [] fortyEntries).compounds.map (fun x => x.reading) =
      [1, 20, 3, 21, 5, 22, 7, 23, 9, 24, 11, 25, 13, 26, 15, 27, 17, 28, 19, 29,
        18, 37, 35, 38, 36, 33, 31, 34, 39, 32, 14, 30, 6, 10, 16, 4, 2, 8, 0, 12].map
        (fun i => [0x3042 + i]) ∧
    ((KanjiPage.setKanji Stl.gnuStdSort [] fortyEntries).compounds.filter
        fun x => x.isCommon == false && x.word == [0x4E00 + 12]) =
      [KanjiPage.compoundInfo (wordEntryNumbered 12 36),
        KanjiPage.compoundInfo (wordEntryNumbered 12 33)] ∧
    (((fortyEntries.filter fun e => !e.isKanjidic).map
        KanjiPage.compoundInfo).filter fun x => x.isCommon == false && x.word == [0x4E00 + 12]) =
      [KanjiPage.compoundInfo (wordEntryNumbered 12 33),
        KanjiPage.compoundInfo (wordEntryNumbered 12 36)] ∧
    (KanjiPage.setKanji Stl.gnuStdSort [] [nekoNekoEntry, nekoByouEntry]).compounds =
      [KanjiPage.compoundInfo nekoNekoEntry, KanjiPage.compoundInfo nekoByouEntry] ∧
    ¬ (∀ (kanjiResults compoundResults : List Entry) (c : Bool) (w : QString),
        ((KanjiPage.setKanji Stl.gnuStdSort kanjiResults compoundResults).compounds.filter
          fun x => x.isCommon == c && x.word == w) =
        (((compoundResults.filter fun e => !e.isKanjidic).map
          KanjiPage.compoundInfo).filter fun x => x.isCommon == c && x.word == w)) := by
  have hne : ((KanjiPage.setKanji Stl.gnuStdSort [] nekoSeventeen).compounds.filter
        fun x => x.isCommon == false && x.word == neko) ≠
      (((nekoSeventeen.filter fun e => !e.isKanjidic).map
        KanjiPage.compoundInfo).filter fun x => x.isCommon == false && x.word == neko) := by
    decide
  exact ⟨by decide, hne, by decide, by decide, by decide, by decide,
    fun h => hne (h [] nekoSeventeen false neko)⟩

/-- C10, amended: for every list of compound search results (and every
conforming `std::sort`), the candidates with a given `isCommon` flag and a
given word are, in the sorted list, a permutation of the candidates with that
flag and word in search-result order: all are kept, in an order the sort does
not fix. -/
theorem setKanji_equal_keys_perm
    (sort : (CompoundInfo → CompoundInfo → Bool) → List CompoundInfo → List CompoundInfo)
    (hsort : StdSortContract sort) (kanjiResults compoundResults : List Entry)
    (c : Bool) (w : QString) :
    List.Perm
      ((KanjiPage.setKanji sort kanjiResults compoundResults).compounds.filter
        fun x => x.isCommon == c && x.word == w)
      (((compoundResults.filter fun e => !e.isKanjidic).map
        KanjiPage.compoundInfo).filter fun x => x.isCommon == c && x.word == w) := by
  rw [setKanji_compounds_eq sort hsort]
  exact ((hsort KanjiPage.compoundLess _ compoundLess_strictWeakOrder).1).filter _

set_option maxRecDepth 100000 in
/-- The amended C10 for insertion sort as the `std::sort` and the two word
entries of 猫: both are kept. -/
theorem setKanji_equal_keys_perm_witness :
    StdSortContract insertionStdSort ∧
    List.Perm
      ((KanjiPage.setKanji insertionStdSort [] [nekoNekoEntry, nekoByouEntry]).compounds.filter
        fun x => x.isCommon == false && x.word == neko)
      ((([nekoNekoEntry, nekoByouEntry].filter fun e => !e.isKanjidic).map
        KanjiPage.compoundInfo).filter fun x => x.isCommon == false && x.word == neko) ∧
    List.Perm
      ((KanjiPage.setKanji Stl.gnuStdSort [] nekoSeventeen).compounds.filter
        fun x => x.isCommon == false && x.word == neko)
      (((nekoSeventeen.filter fun e => !e.isKanjidic).map
        KanjiPage.compoundInfo).filter fun x => x.isCommon == false && x.word == neko) :=
  ⟨insertionStdSort_contract,
    setKanji_equal_keys_perm insertionStdSort insertionStdSort_contract []
      [nekoNekoEntry, nekoByouEntry] false neko,
    by decide⟩

/-! ## Text operations -/

theorem QString.indexOf_append (ch : QChar) :
    ∀ (w rest : QString), ch ∉ w → QString.indexOf (w ++ ch :: rest) ch = w.length
  | [], rest, _ => by simp [QString.indexOf]
  | a :: w, rest, h => by
    have ha : a ≠ ch := fun e => h (e ▸ List.mem_cons_self _ _)
    have hw : ch ∉ w := fun e => h (List.mem_cons_of_mem _ e)
    have ih := QString.indexOf_append ch w rest hw
    have e : QString.indexOf (a :: (w ++ ch :: rest)) ch =
        if a = ch then 0
        else if QString.indexOf (w ++ ch :: rest) ch < 0 then -1
        else QString.indexOf (w ++ ch :: rest) ch + 1 := rfl
    rw [List.cons_append, e, if_neg ha, ih, List.length_cons]
    split_ifs with hlt
    · omega
    · push_cast
      rfl

theorem QString.mid_append (p s : QString) : QString.mid (p ++ s) p.length = s := by
  unfold QString.mid
  rw [if_neg (by simp)]
  simp

theorem QString.left_append (p s : QString) (hs : s ≠ []) :
    QString.left (p ++ s) p.length = p := by
  have hpos : 0 < s.length := List.length_pos.2 hs
  have hc : ¬ ((p.length : Int) < 0 ∨ ((p ++ s).length : Int) ≤ (p.length : Int)) := by
    rw [List.length_append]
    push_cast
    omega
  unfold QString.left
  rw [if_neg hc]
  simp

/-! ## Further properties of `KanjiPage` -/

/-- C11: for every meaning text `m` of a candidate, the summary `meaningShort`
that `setKanji` renders has at most 80 characters; it is `m` itself when `m`
has at most 80 characters, and otherwise the first 77 characters of `m` (a
prefix of `m`) followed by `"..."`, 80 characters in all. -/
theorem meaningShort_spec (m : QString) :
    (KanjiPage.meaningShort m).length ≤ 80 ∧
    (m.length ≤ 80 → KanjiPage.meaningShort m = m) ∧
    (80 < m.length →
      KanjiPage.meaningShort m = m.take 77 ++ [0x2E, 0x2E, 0x2E] ∧
      (∃ rest, m = m.take 77 ++ rest) ∧
      (m.take 77).length = 77 ∧
      (KanjiPage.meaningShort m).length = 80) ∧
    KanjiPage.meaningShort (List.replicate 80 0x61) = List.replicate 80 0x61 ∧
    KanjiPage.meaningShort (List.replicate 81 0x61) =
      List.replicate 77 0x61 ++ [0x2E, 0x2E, 0x2E] := by
  have hlong : 80 < m.length →
      KanjiPage.meaningShort m = m.take 77 ++ [0x2E, 0x2E, 0x2E] := by
    intro h
    have h77 : ¬ ((77 : Int) < 0 ∨ (m.length : Int) ≤ 77) := by omega
    simp only [KanjiPage.meaningShort, QString.left, if_pos h, if_neg h77, ellipsis]
    rfl
  refine ⟨?_, ?_, ?_, by decide, by decide⟩
  · by_cases h : 80 < m.length
    · rw [hlong h]
      simp only [List.length_append, List.length_take, List.length_cons, List.length_nil]
      omega
    · simp only [KanjiPage.meaningShort, if_neg h]
      omega
  · intro h
    simp only [KanjiPage.meaningShort, if_neg (by omega : ¬ m.length > 80)]
  · intro h
    refine ⟨hlong h, ⟨m.drop 77, (List.take_append_drop 77 m).symm⟩, ?_, ?_⟩
    · simp only [List.length_take]
      omega
    · rw [hlong h]
      simp only [List.length_append, List.length_take, List.length_cons, List.length_nil]
      omega

/-- C14: for every non-empty word without `':'` and every reading (possibly
empty, possibly with `':'` in it), `handleLinkClicked` applied to the link
target `word:` + word + `:` + reading that `setKanji` writes emits
`wordClicked` with exactly that word and that reading.  That target is the
`href` of the anchor `<a href="word:%1:%2">%1</a>` which `setKanji` writes for
a candidate with this word and reading. -/
theorem wordLink_roundtrip (word reading : QString)
    (hne : word ≠ []) (hcolon : colon ∉ word) :
    KanjiPage.handleLinkClicked (KanjiPage.wordLinkTarget word reading) =
      some (KanjiPage.Signal.wordClicked word reading) ∧
    KanjiPage.wordLinkTarget word reading = [0x77, 0x6F, 0x72, 0x64, 0x3A] ++ word ++
      [0x3A] ++ reading ∧
    (∀ (meaning : QString) (isCommon : Bool),
      KanjiPage.wordLink
          { word := word, reading := reading, meaning := meaning, isCommon := isCommon } =
        [0x3C, 0x61, 0x20, 0x68, 0x72, 0x65, 0x66, 0x3D, 0x22] ++
          KanjiPage.wordLinkTarget word reading ++ [0x22, 0x3E] ++ word ++
          [0x3C, 0x2F, 0x61, 0x3E]) := by
  refine ⟨?_, rfl, fun _ _ => rfl⟩
  have hk : QString.startsWith (KanjiPage.wordLinkTarget word reading) kanjiScheme = false := by
    simp [KanjiPage.wordLinkTarget, wordScheme, kanjiScheme, QString.startsWith]
  have hw : QString.startsWith (KanjiPage.wordLinkTarget word reading) wordScheme = true := by
    unfold KanjiPage.wordLinkTarget
    rw [List.append_assoc, List.append_assoc]
    exact QString.startsWith_append _ _
  have hrest : QString.mid (KanjiPage.wordLinkTarget word reading) 5 =
      word ++ colon :: reading := by
    have := QString.mid_append wordScheme (word ++ colon :: reading)
    simpa [KanjiPage.wordLinkTarget, wordScheme] using this
  have hsep : QString.indexOf (word ++ colon :: reading) colon = word.length :=
    QString.indexOf_append colon word reading hcolon
  have hpos : (word.length : Int) > 0 := by
    have := List.length_pos.2 hne
    omega
  have hleft : QString.left (word ++ colon :: reading) word.length = word :=
    QString.left_append word (colon :: reading) (List.cons_ne_nil _ _)
  have hmid : QString.mid (word ++ colon :: reading) ((word.length : Int) + 1) = reading := by
    have := QString.mid_append (word ++ [colon]) reading
    simpa using this
  unfold KanjiPage.handleLinkClicked
  simp only [hk, hw, hrest, hsep, hpos, hleft, hmid, Bool.false_eq_true, if_false, if_true]

/-- The statement of C14 for the word 猫 and a reading with a colon in it; an
empty word gives no signal, and the other two kinds of link give
`kanjiClicked`. -/
theorem wordLink_roundtrip_witness :
    neko ≠ [] ∧ colon ∉ neko ∧
    KanjiPage.handleLinkClicked (KanjiPage.wordLinkTarget neko [0x306D, 0x3A, 0x3053]) =
      some (KanjiPage.Signal.wordClicked neko [0x306D, 0x3A, 0x3053]) ∧
    KanjiPage.handleLinkClicked
        [0x77, 0x6F, 0x72, 0x64, 0x3A, 0x732B, 0x3A, 0x306D, 0x3053] =
      some (KanjiPage.Signal.wordClicked [0x732B] [0x306D, 0x3053]) ∧
    KanjiPage.handleLinkClicked [0x77, 0x6F, 0x72, 0x64, 0x3A, 0x3A, 0x306D] = none ∧
    KanjiPage.handleLinkClicked [0x6B, 0x61, 0x6E, 0x6A, 0x69, 0x3A, 0x732B] =
      some (KanjiPage.Signal.kanjiClicked 0x732B) ∧
    KanjiPage.handleLinkClicked [0x732B] = some (KanjiPage.Signal.kanjiClicked 0x732B) ∧
    KanjiPage.handleLinkClicked [0x306D] = none :=
  ⟨by decide, by decide,
    (wordLink_roundtrip neko [0x306D, 0x3A, 0x3053] (by decide) (by decide)).1,
    by decide, by decide, by decide, by decide, by decide⟩

/-- C13: the comparator that `setKanji` hands to `std::sort` puts `a` before `b`
exactly when the flags differ and `a` is common, or the flags agree and the
word of `a` is smaller.  It is irreflexive, asymmetric and transitive; two
candidates are incomparable exactly when they have the same flag and the same
word, and incomparability is transitive: a strict weak ordering, as `std::sort`
requires. -/
theorem compoundLess_isStrictWeakOrdering :
    (∀ a b, KanjiPage.compoundLess a b = true ↔
      (a.isCommon ≠ b.isCommon ∧ a.isCommon = true) ∨
        (a.isCommon = b.isCommon ∧ QString.lt a.word b.word = true)) ∧
    (∀ a, KanjiPage.compoundLess a a = false) ∧
    (∀ a b, KanjiPage.compoundLess a b = true → KanjiPage.compoundLess b a = false) ∧
    (∀ a b c, KanjiPage.compoundLess a b = true → KanjiPage.compoundLess b c = true →
      KanjiPage.compoundLess a c = true) ∧
    (∀ a b, (KanjiPage.compoundLess a b = false ∧ KanjiPage.compoundLess b a = false) ↔
      (a.isCommon = b.isCommon ∧ a.word = b.word)) ∧
    (∀ a b c,
      (KanjiPage.compoundLess a b = false ∧ KanjiPage.compoundLess b a = false) →
      (KanjiPage.compoundLess b c = false ∧ KanjiPage.compoundLess c b = false) →
      (KanjiPage.compoundLess a c = false ∧ KanjiPage.compoundLess c a = false)) ∧
    StrictWeakOrder KanjiPage.compoundLess := by
  refine ⟨?_, compoundLess_irrefl, ?_, compoundLess_trans, ?_, ?_,
    compoundLess_strictWeakOrder⟩
  · intro a b
    unfold KanjiPage.compoundLess
    cases ha : a.isCommon <;> cases hb : b.isCommon <;> simp
  · intro a b hab
    rcases compoundLess_strictWeakOrder.total b a with h | h
    · rw [hab] at h
      exact absurd h (by decide)
    · exact h
  · intro a b
    constructor
    · rintro ⟨h₁, h₂⟩
      exact compoundLess_incomparable a b h₁ h₂
    · rintro ⟨h₁, h₂⟩
      exact ⟨compoundLess_of_same_key a b h₁ h₂, compoundLess_of_same_key b a h₁.symm h₂.symm⟩
  · rintro a b c ⟨h₁, h₂⟩ ⟨h₃, h₄⟩
    exact compoundLess_strictWeakOrder.2.2 a b c h₁ h₂ h₃ h₄

/-- C15: the reading test of `setWord` is containment in the readings text, not
equality with a reading.  For the query 猫 with the hint ねこ and two word
entries of 猫, the first with the single reading びょう and the second with the
single reading ねこま (whatever the delimiter of the readings text), `setWord`
selects the second entry: its readings text contains ねこ without being ねこ, no
reading of either entry is ねこ, and the first entry has the same word.  Without
a hint the first entry is selected. -/
theorem setWord_reading_test_textual (delimiter : QString) :
    nekoReading ≠ [] ∧
    (WordPage.setWord neko nekoReading
      [wordEntryOf delimiter neko [byouReading],
        wordEntryOf delimiter neko [nekomaReading]]).bestEntry = some 1 ∧
    (wordEntryOf delimiter neko [byouReading]).isKanjidic = false ∧
    (wordEntryOf delimiter neko [byouReading]).word = neko ∧
    (wordEntryOf delimiter neko [nekomaReading]).isKanjidic = false ∧
    (wordEntryOf delimiter neko [nekomaReading]).word = neko ∧
    QString.contains (wordEntryOf delimiter neko [nekomaReading]).readings nekoReading = true ∧
    (wordEntryOf delimiter neko [nekomaReading]).readings ≠ nekoReading ∧
    nekoReading ∉ [nekomaReading] ∧
    nekoReading ∉ [byouReading] ∧
    QString.contains (wordEntryOf delimiter neko [byouReading]).readings nekoReading = false ∧
    (WordPage.setWord neko []
      [wordEntryOf delimiter neko [byouReading],
        wordEntryOf delimiter neko [nekomaReading]]).bestEntry = some 0 := by
  have e : ∀ r : QString, wordEntryOf delimiter neko [r] =
      { isKanjidic := false, word := neko, readings := r, meanings := [], common := false } :=
    fun _ => rfl
  rw [e, e]
  decide

/-! ## Navigation history -/

theorem PageHistory.invariant_start : PageHistory.start.Invariant :=
  Or.inl ⟨rfl, rfl⟩

theorem PageHistory.invariant_reset (h : PageHistory) (s : PageState) :
    (h.reset s).Invariant :=
  Or.inr ⟨by simp [PageHistory.reset], by simp [PageHistory.reset]⟩

theorem PageHistory.length_push (h : PageHistory) (s : PageState) (hinv : h.Invariant) :
    ((h.push s).pageHistory.length : Int) = h.pageHistoryIndex + 2 := by
  unfold PageHistory.push
  simp only [List.length_append, List.length_take, List.length_cons, List.length_nil]
  rcases hinv with ⟨h₁, h₂⟩ | ⟨h₁, h₂⟩
  · simp [h₁, h₂]
  · omega

theorem PageHistory.index_push (h : PageHistory) (s : PageState) :
    (h.push s).pageHistoryIndex = ((h.push s).pageHistory.length : Int) - 1 := rfl

theorem PageHistory.invariant_push (h : PageHistory) (s : PageState) (hinv : h.Invariant) :
    (h.push s).Invariant := by
  have hl := PageHistory.length_push h s hinv
  have hi := PageHistory.index_push h s
  refine Or.inr ⟨?_, ?_⟩
  · rcases hinv with ⟨_, h₂⟩ | ⟨h₁, _⟩ <;> omega
  · omega

theorem PageHistory.invariant_back (h : PageHistory) (hinv : h.Invariant)
    (s : Option PageState) (h' : PageHistory) (hb : h.back = Except.ok (s, h')) :
    h'.Invariant := by
  unfold PageHistory.back at hb
  split_ifs at hb with hc
  injection hb with hb
  injection hb with _ hb
  subst hb
  rcases hinv with ⟨_, h₂⟩ | ⟨h₁, h₂⟩
  · omega
  · exact Or.inr ⟨by simp only; omega, by simp only; omega⟩

theorem PageHistory.invariant_forward (h : PageHistory) (hinv : h.Invariant)
    (s : Option PageState) (h' : PageHistory) (hf : h.forward = Except.ok (s, h')) :
    h'.Invariant := by
  unfold PageHistory.forward at hf
  split_ifs at hf with hc
  injection hf with hf
  injection hf with _ hf
  subst hf
  rcases hinv with ⟨h₁, h₂⟩ | ⟨h₁, h₂⟩
  · simp [h₁, h₂] at hc
  · exact Or.inr ⟨by simp only; omega, by simp only; omega⟩

theorem PageHistory.take_length (h : PageHistory) (hinv : h.Invariant) :
    (h.pageHistory.take (h.pageHistoryIndex + 1).toNat).length =
      (h.pageHistoryIndex + 1).toNat := by
  rw [List.length_take]
  rcases hinv with ⟨h₁, h₂⟩ | ⟨h₁, h₂⟩
  · simp [h₁, h₂]
  · omega

/-- C12: the navigation history starts empty with index `-1`, which satisfies
the invariant.  For every history that satisfies the invariant and every state
`s`, `push(s)` keeps the entries up to the cursor, drops the ones after it and
appends `s`; the cursor is then on the last index, which holds `s`, so that
`forward()` fails with `NoHistoryError`; the entries up to the old cursor are
unchanged and the invariant holds again.  After `reset(A)`, `push(B)`,
`push(C)`, `back()` returns `B`; a following `push(D)` leaves `A, B, D` and
`forward()` fails. -/
theorem push_discards_forward (h : PageHistory) (s : PageState) (hinv : h.Invariant) :
    PageHistory.start = { pageHistory := [], pageHistoryIndex := -1 } ∧
    PageHistory.start.Invariant ∧
    (h.push s).pageHistory = h.pageHistory.take (h.pageHistoryIndex + 1).toNat ++ [s] ∧
    ((h.push s).pageHistory.length : Int) = h.pageHistoryIndex + 2 ∧
    (h.push s).pageHistoryIndex = ((h.push s).pageHistory.length : Int) - 1 ∧
    (h.push s).pageHistoryIndex = h.pageHistoryIndex + 1 ∧
    (h.push s).current = some s ∧
    (h.push s).forward = Except.error NavigationError.NoHistoryError ∧
    (∀ i : Nat, (i : Int) ≤ h.pageHistoryIndex →
      (h.push s).pageHistory[i]? = h.pageHistory[i]?) ∧
    (h.push s).Invariant ∧
    (∀ (g : PageHistory) (A B C D : PageState),
      (((g.reset A).push B).push C).back =
        Except.ok (some B, { pageHistory := [A, B, C], pageHistoryIndex := 1 }) ∧
      PageHistory.push { pageHistory := [A, B, C], pageHistoryIndex := 1 } D =
        { pageHistory := [A, B, D], pageHistoryIndex := 2 } ∧
      (PageHistory.push { pageHistory := [A, B, C], pageHistoryIndex := 1 } D).forward =
        Except.error NavigationError.NoHistoryError) := by
  have hl := PageHistory.length_push h s hinv
  have hi := PageHistory.index_push h s
  have ht := PageHistory.take_length h hinv
  have hidx : (h.push s).pageHistoryIndex = h.pageHistoryIndex + 1 := by omega
  have hge : -1 ≤ h.pageHistoryIndex := by
    rcases hinv with ⟨_, h₂⟩ | ⟨h₁, _⟩ <;> omega
  refine ⟨rfl, PageHistory.invariant_start, rfl, hl, hi, hidx, ?_, ?_, ?_,
    PageHistory.invariant_push h s hinv, ?_⟩
  · have hne : ¬ ((h.push s).pageHistory = [] ∨ (h.push s).pageHistoryIndex < 0) := by
      rintro (h₀ | h₀)
      · rw [h₀] at hl
        simp at hl
        omega
      · omega
    unfold PageHistory.current
    rw [if_neg hne, hidx]
    show (h.pageHistory.take (h.pageHistoryIndex + 1).toNat ++ [s])[
      (h.pageHistoryIndex + 1).toNat]? = some s
    rw [List.getElem?_append_right (by omega), ht]
    simp
  · unfold PageHistory.forward
    rw [if_pos (by omega)]
  · intro i hi'
    show (h.pageHistory.take (h.pageHistoryIndex + 1).toNat ++ [s])[i]? = h.pageHistory[i]?
    have hlt : i < (h.pageHistoryIndex + 1).toNat := by omega
    rw [List.getElem?_append_left (by omega), List.getElem?_take_of_lt hlt]
  · intro g A B C D
    exact ⟨rfl, rfl, rfl⟩

/-- The statement of C12 for the history search page, kanji page of 猫, word
page of 猫 with the cursor on the kanji page, and a push of the word page of
日光: the word page of 猫 is dropped. -/
theorem push_discards_forward_witness :
    PageHistory.Invariant
      { pageHistory := [searchPage, nekoKanjiPage, nekoWordPage], pageHistoryIndex := 1 } ∧
    PageHistory.push
        { pageHistory := [searchPage, nekoKanjiPage, nekoWordPage], pageHistoryIndex := 1 }
        nikkouWordPage =
      { pageHistory := [searchPage, nekoKanjiPage, nikkouWordPage], pageHistoryIndex := 2 } ∧
    (PageHistory.push
        { pageHistory := [searchPage, nekoKanjiPage, nekoWordPage], pageHistoryIndex := 1 }
        nikkouWordPage).forward = Except.error NavigationError.NoHistoryError ∧
    (PageHistory.push
        { pageHistory := [searchPage, nekoKanjiPage, nekoWordPage], pageHistoryIndex := 1 }
        nikkouWordPage).current = some nikkouWordPage ∧
    (((PageHistory.start.reset searchPage).push nekoKanjiPage).push nekoWordPage).back =
      Except.ok (some nekoKanjiPage,
        { pageHistory := [searchPage, nekoKanjiPage, nekoWordPage], pageHistoryIndex := 1 }) :=
  have hinv : PageHistory.Invariant
      { pageHistory := [searchPage, nekoKanjiPage, nekoWordPage], pageHistoryIndex := 1 } :=
    Or.inr ⟨by decide, by decide⟩
  have h := push_discards_forward
    { pageHistory := [searchPage, nekoKanjiPage, nekoWordPage], pageHistoryIndex := 1 }
    nikkouWordPage hinv
  ⟨hinv, rfl, h.2.2.2.2.2.2.2.1, h.2.2.2.2.2.2.1,
    (h.2.2.2.2.2.2.2.2.2.2 PageHistory.start searchPage nekoKanjiPage nekoWordPage
      nikkouWordPage).1⟩

end Kiten
